import Mathlib

/-!
Verification of the WebSocket tracker gateway in `src/lib/uws-tracker.ts`
(class `UWebSocketsTracker`).

The embedding models:
  * the structured message values exchanged over the socket together with
    the serialization performed by `JSON.stringify` and the parse performed
    by `JSON.parse` (platform functions used at lines 79 and 93 of the
    source);
  * the constructor's settings merge (JavaScript object spread over the
    default `server` and `websockets` sections);
  * the `run` method's listen outcome, together with the settle-once
    semantics of the promise it returns;
  * the four transport event handlers (`open`, `message`, `drain`, `close`)
    as a step function over an explicit gateway state, separating the
    observable effects (registry calls, identity creations, close requests,
    the connection counter) from console log output.

Deliberate modelling restrictions, stated once here: numbers in messages
are integers (IEEE doubles are outside the embedding, and the model's
number parser does not reject redundant leading zeros); inbound payloads
are taken after UTF-8 decoding (the `StringDecoder` byte layer is skipped),
so a payload is a `String`.
-/

namespace UwsTracker

/-- Structured message values: the JavaScript values produced by
`JSON.parse` and consumed by `JSON.stringify` in the source, with numbers
restricted to integers. -/
inductive Json where
  | null : Json
  | bool (b : Bool) : Json
  | num (n : Int) : Json
  | str (s : String) : Json
  | arr (elems : List Json) : Json
  | obj (members : List (String × Json)) : Json
  deriving Inhabited

/-- Opening brace character (written by code point to keep string literals
free of brace characters). -/
def lbr : Char := '\x7b'

/-- Closing brace character. -/
def rbr : Char := '\x7d'

/-- Lower-case hexadecimal digit for a value below 16, as
`JSON.stringify` emits in `\u00xx` escapes. -/
def hexDigitChar : Nat → Char
  | 0 => '0' | 1 => '1' | 2 => '2' | 3 => '3' | 4 => '4'
  | 5 => '5' | 6 => '6' | 7 => '7' | 8 => '8' | 9 => '9'
  | 10 => 'a' | 11 => 'b' | 12 => 'c' | 13 => 'd' | 14 => 'e'
  | _ => 'f'

/-- Serialization of one character inside a JSON string literal, following
`JSON.stringify`: `"` and `\` are escaped, the common control characters
get their two-character escapes, all other control characters get a
`\u00xx` escape, and every other character is emitted verbatim. -/
def escapeChar (c : Char) : List Char :=
  if c = '"' then ['\\', '"']
  else if c = '\\' then ['\\', '\\']
  else if c = '\x08' then ['\\', 'b']
  else if c = '\x09' then ['\\', 't']
  else if c = '\x0a' then ['\\', 'n']
  else if c = '\x0c' then ['\\', 'f']
  else if c = '\x0d' then ['\\', 'r']
  else if c.toNat < 32 then
    '\\' :: 'u' :: '0' :: '0' :: hexDigitChar (c.toNat / 16) :: [hexDigitChar (c.toNat % 16)]
  else [c]

/-- Decimal digit character. -/
def digitChar : Nat → Char
  | 0 => '0' | 1 => '1' | 2 => '2' | 3 => '3' | 4 => '4'
  | 5 => '5' | 6 => '6' | 7 => '7' | 8 => '8' | _ => '9'

/-- Decimal digits of a natural number, most significant first, as
`JSON.stringify` prints an integral number. -/
def natChars (n : Nat) : List Char :=
  if _h : n < 10 then [digitChar n]
  else natChars (n / 10) ++ [digitChar (n % 10)]
decreasing_by exact Nat.div_lt_self (by omega) (by omega)

/-- Decimal representation of an integer, with a leading minus sign for
negative values, as `JSON.stringify` prints it. -/
def intChars (n : Int) : List Char :=
  if n < 0 then '-' :: natChars n.natAbs else natChars n.natAbs

/-- Quoted and escaped JSON string literal. -/
def quoteString (s : String) : List Char :=
  '"' :: (s.data.flatMap escapeChar) ++ ['"']

mutual

/-- Character sequence `JSON.stringify` produces for a structured value:
literals for `null` and booleans, decimal integers, quoted escaped
strings, comma-separated bracketed arrays and comma-separated braced
objects with `key:value` members, with no inserted whitespace. -/
def stringifyChars : Json → List Char
  | .null => "null".data
  | .bool true => "true".data
  | .bool false => "false".data
  | .num n => intChars n
  | .str s => quoteString s
  | .arr [] => ['[', ']']
  | .arr (v :: vs) => '[' :: stringifyElems v vs ++ [']']
  | .obj [] => [lbr, rbr]
  | .obj ((k, v) :: ms) => lbr :: stringifyMembers k v ms ++ [rbr]
termination_by v => sizeOf v

/-- Comma-separated serializations of a nonempty array's elements. -/
def stringifyElems (v : Json) : List Json → List Char
  | [] => stringifyChars v
  | w :: ws => stringifyChars v ++ ',' :: stringifyElems w ws
termination_by ws => sizeOf v + sizeOf ws

/-- Comma-separated serializations of a nonempty object's members. -/
def stringifyMembers (k : String) (v : Json) : List (String × Json) → List Char
  | [] => quoteString k ++ ':' :: stringifyChars v
  | (k2, v2) :: ms => quoteString k ++ ':' :: stringifyChars v ++ ',' :: stringifyMembers k2 v2 ms
termination_by ms => sizeOf v + sizeOf ms

end

/-- Model of `JSON.stringify` restricted to the structured values of this
embedding (the serialization performed by the identity's `sendMessage` at
line 93 of the source). -/
def Json.stringify (v : Json) : String := String.mk (stringifyChars v)

/-- JSON insignificant whitespace characters per RFC 8259: space, tab,
line feed and carriage return. -/
def isWsChar (c : Char) : Bool :=
  c = ' ' || c = '\x09' || c = '\x0a' || c = '\x0d'

/-- Skip leading insignificant whitespace. -/
def skipWs : List Char → List Char
  | [] => []
  | c :: rest => if isWsChar c then skipWs rest else c :: rest

/-- Value of one hexadecimal digit character, case-insensitive as in a
JSON `\uXXXX` escape. -/
def parseHexDigit (c : Char) : Option Nat :=
  if 48 ≤ c.toNat ∧ c.toNat ≤ 57 then some (c.toNat - 48)
  else if 97 ≤ c.toNat ∧ c.toNat ≤ 102 then some (c.toNat - 87)
  else if 65 ≤ c.toNat ∧ c.toNat ≤ 70 then some (c.toNat - 55)
  else none

/-- Parse the body of a JSON string literal after its opening quote:
returns the decoded characters and the input remaining after the closing
quote. Escapes `\" \\ \/ \b \f \n \r \t \uXXXX` are decoded; an unescaped
control character, a bad escape or a missing closing quote is a parse
error. -/
def parseStringBody : List Char → Option (List Char × List Char)
  | [] => none
  | c :: rest =>
    if c = '"' then some ([], rest)
    else if c = '\\' then
      match rest with
      | [] => none
      | e :: rest2 =>
        if e = '"' then (parseStringBody rest2).map (fun p => ('"' :: p.1, p.2))
        else if e = '\\' then (parseStringBody rest2).map (fun p => ('\\' :: p.1, p.2))
        else if e = '/' then (parseStringBody rest2).map (fun p => ('/' :: p.1, p.2))
        else if e = 'b' then (parseStringBody rest2).map (fun p => ('\x08' :: p.1, p.2))
        else if e = 'f' then (parseStringBody rest2).map (fun p => ('\x0c' :: p.1, p.2))
        else if e = 'n' then (parseStringBody rest2).map (fun p => ('\x0a' :: p.1, p.2))
        else if e = 'r' then (parseStringBody rest2).map (fun p => ('\x0d' :: p.1, p.2))
        else if e = 't' then (parseStringBody rest2).map (fun p => ('\x09' :: p.1, p.2))
        else if e = 'u' then
          match rest2 with
          | h1 :: h2 :: h3 :: h4 :: rest3 =>
            match parseHexDigit h1, parseHexDigit h2, parseHexDigit h3, parseHexDigit h4 with
            | some a, some b, some c2, some d =>
              (parseStringBody rest3).map
                (fun p => (Char.ofNat (((a * 16 + b) * 16 + c2) * 16 + d) :: p.1, p.2))
            | _, _, _, _ => none
          | _ => none
        else none
    else if c.toNat < 32 then none
    else (parseStringBody rest).map (fun p => (c :: p.1, p.2))

/-- Split off the maximal run of leading decimal digits. -/
def takeDigits : List Char → List Char × List Char
  | [] => ([], [])
  | c :: rest =>
    if c.isDigit then
      let p := takeDigits rest
      (c :: p.1, p.2)
    else ([], c :: rest)

/-- Numeric value of a digit run, accumulator style. -/
def digitsToNat (acc : Nat) : List Char → Nat
  | [] => acc
  | c :: rest => digitsToNat (acc * 10 + (c.toNat - 48)) rest

/-- Parse a nonempty run of decimal digits into a natural number
(maximal munch). -/
def parseDigits (input : List Char) : Option (Nat × List Char) :=
  let p := takeDigits input
  match p.1 with
  | [] => none
  | ds => some (digitsToNat 0 ds, p.2)

mutual

/-- Recursive-descent JSON value parser with a structural fuel bound:
after optional whitespace, dispatch on the first character to the `null`,
`true`, `false`, string, number, array or object production. Returns the
parsed value and the unconsumed input. -/
def parseValue : Nat → List Char → Option (Json × List Char)
  | 0, _ => none
  | fuel + 1, input =>
    match skipWs input with
    | [] => none
    | c :: rest =>
      if c = 'n' then
        match rest with
        | 'u' :: 'l' :: 'l' :: r => some (.null, r)
        | _ => none
      else if c = 't' then
        match rest with
        | 'r' :: 'u' :: 'e' :: r => some (.bool true, r)
        | _ => none
      else if c = 'f' then
        match rest with
        | 'a' :: 'l' :: 's' :: 'e' :: r => some (.bool false, r)
        | _ => none
      else if c = '"' then
        (parseStringBody rest).map (fun p => (.str (String.mk p.1), p.2))
      else if c = '-' then
        match parseDigits rest with
        | some (n, r) => some (.num (-(n : Int)), r)
        | none => none
      else if c.isDigit then
        match parseDigits (c :: rest) with
        | some (n, r) => some (.num (n : Int), r)
        | none => none
      else if c = '[' then
        match skipWs rest with
        | [] => none
        | c2 :: r2 =>
          if c2 = ']' then some (.arr [], r2)
          else (parseElems fuel (c2 :: r2)).map (fun p => (.arr p.1, p.2))
      else if c = lbr then
        match skipWs rest with
        | [] => none
        | c2 :: r2 =>
          if c2 = rbr then some (.obj [], r2)
          else (parseMembers fuel (c2 :: r2)).map (fun p => (.obj p.1, p.2))
      else none

/-- Parse the elements of a nonempty array, consuming the closing
bracket. -/
def parseElems : Nat → List Char → Option (List Json × List Char)
  | 0, _ => none
  | fuel + 1, input =>
    match parseValue fuel input with
    | none => none
    | some (v, r) =>
      match skipWs r with
      | [] => none
      | c :: r2 =>
        if c = ',' then (parseElems fuel r2).map (fun p => (v :: p.1, p.2))
        else if c = ']' then some ([v], r2)
        else none

/-- Parse the members of a nonempty object, consuming the closing
brace. -/
def parseMembers : Nat → List Char → Option (List (String × Json) × List Char)
  | 0, _ => none
  | fuel + 1, input =>
    match skipWs input with
    | [] => none
    | c :: rest =>
      if c = '"' then
        match parseStringBody rest with
        | none => none
        | some (k, r) =>
          match skipWs r with
          | [] => none
          | c2 :: r2 =>
            if c2 = ':' then
              match parseValue fuel r2 with
              | none => none
              | some (v, r3) =>
                match skipWs r3 with
                | [] => none
                | c3 :: r4 =>
                  if c3 = ',' then
                    (parseMembers fuel r4).map (fun p => ((String.mk k, v) :: p.1, p.2))
                  else if c3 = rbr then some ([(String.mk k, v)], r4)
                  else none
            else none
      else none

end

/-- Parse a whole character sequence as one JSON value; trailing
whitespace is allowed, any other trailing content is a parse error. The
fuel `input.length + 1` dominates the recursion depth of any parse. -/
def parseChars (input : List Char) : Option Json :=
  match parseValue (input.length + 1) input with
  | some (v, rest) => if (skipWs rest).isEmpty then some v else none
  | none => none

/-- Model of `JSON.parse` (the parse the message handler performs at line
79 of the source, after UTF-8 decoding): succeeds exactly on well-formed
JSON text, restricted to integral numbers as stated at the top of this
file. -/
def Json.parse (s : String) : Option Json := parseChars s.data

/-! ### Settings merge (constructor, lines 36-53)

A JavaScript object literal built with spreads is modelled as an ordered
association list in which a later binding of a key shadows an earlier
one, exactly the semantics of the spread operator in an object literal. -/

/-- JavaScript object: ordered key/value bindings, later bindings
shadowing earlier ones. -/
abbrev JsObj := List (String × Json)

/-- Property read on a JavaScript object: the last binding of the key
wins. -/
def jsGet (o : JsObj) (k : String) : Option Json :=
  o.reverse.lookup k

/-- Object literal `\x7b ...defaults, ...overrides \x7d`: the default
bindings are written first, the caller's bindings after them. -/
def jsSpread (defaults overrides : JsObj) : JsObj := defaults ++ overrides

/-- Default `server` section of the constructor (lines 38-41). -/
def defaultServer : JsObj := [("port", .num 8000), ("host", .str "0.0.0.0")]

/-- Default `websockets` section of the constructor (lines 43-49). -/
def defaultWebsockets : JsObj :=
  [("path", .str "/"), ("maxPayloadLength", .num (64 * 1024)), ("idleTimeout", .num 240),
   ("compression", .num 1), ("logLevel", .num 0)]

/-- Caller-supplied configuration object: each section may be absent
(`undefined`), matching the guards `settings && settings.server` and
`settings && settings.websockets`. -/
structure RawSettings where
  server : Option JsObj := none
  websockets : Option JsObj := none

/-- Effective settings object the constructor stores in
`this.settings`. -/
structure Settings where
  server : JsObj
  websockets : JsObj

/-- Constructor lines 36-51: `this.settings` is rebuilt as an object whose
`server` and `websockets` sections spread the caller's section (or the
empty object when absent) over the defaults; the `settings` parameter
itself defaults to the empty object. -/
def mkSettings (raw : Option RawSettings) : Settings :=
  let r := raw.getD {}
  { server := jsSpread defaultServer (r.server.getD [])
    websockets := jsSpread defaultWebsockets (r.websockets.getD []) }

/-! ### The `run` method (lines 129-147) -/

/-- Body of the listen callback (lines 138-144): a truthy token resolves
the promise, a falsy token rejects it with an error naming the configured
host and port. The token is an opaque handle, modelled as `Option Nat`. -/
def listenOutcome (host : String) (port : Nat) (token : Option Nat) : Except String Unit :=
  match token with
  | some _ => .ok ()
  | none => .error ("failed to listen to " ++ host ++ ":" ++ toString port)

/-- Settle-once semantics of the promise `run` returns: the first
invocation of the listen callback settles it through `resolve` or
`reject`, later invocations cannot change a settled promise, and with no
invocation at all the promise stays pending (`none`). -/
def runResult (host : String) (port : Nat) (invocations : List (Option Nat)) :
    Option (Except String Unit) :=
  invocations.head?.map (listenOutcome host port)

/-! ### Transport event handlers (`buildApplication`, lines 62-127)

The four `uWebSockets.js` handlers are embedded as a step function over an
explicit gateway state. A connection is a transport handle, modelled by a
numeric id; the set of currently live handles (transport-owned in the
source) is the domain of `GState.conns`, so a close removes the entry.
A peer identity object is identified by its allocation index drawn from
`GState.nextPeer`, which models JavaScript object identity of the literal
created at lines 91-96. Observable effects other than console output are
accumulated in `Obs` entries, console output in `LogEntry` entries; each
`Obs` entry is tagged with the connection whose handler emitted it. -/

abbrev ConnId := Nat

/-- Outcome of one registry `processMessage` call: normal return, a thrown
`TrackerError`, or a thrown error of any other kind. -/
inductive ProcOutcome where
  | ok
  | trackerError
  | otherError

/-- Registry behaviour: the outcome `processMessage` produces for a given
decoded message and peer identity. `disconnectPeer` returns normally (the
gateway wraps no handler around it). -/
abbrev Registry := Json → Nat → ProcOutcome

/-- Per-connection state on the `ws` handle: the lazily bound identity
(`ws.peer`) and the transport's buffered outbound byte count (what
`getBufferedAmount()` returns; never written by the gateway). -/
structure ConnState where
  peer : Option Nat
  bufferedAmount : Nat

/-- Gateway state: the `webSocketsCount` field, the live connections, and
the allocation counter for peer identity indices. -/
structure GState where
  webSocketsCount : Int
  conns : ConnId → Option ConnState
  nextPeer : Nat

/-- State at construction: no connections, `webSocketsCount = 0`. -/
def GState.initial : GState :=
  { webSocketsCount := 0, conns := fun _ => none, nextPeer := 0 }

/-- Point update of the connection table. -/
def updateConns (f : ConnId → Option ConnState) (c : ConnId) (v : Option ConnState) :
    ConnId → Option ConnState :=
  fun c2 => if c2 = c then v else f c2

/-- Observable effects of the handlers apart from console output. -/
inductive Obs where
  | procMsg (c : ConnId) (msg : Json) (peer : Nat)
  | discPeer (c : ConnId) (peer : Nat)
  | wsClose (c : ConnId)
  | peerCreated (c : ConnId) (peer : Nat)

/-- Console output entries, carrying the data the source logs. -/
inductive LogEntry where
  | connected (c : ConnId)
  | messageSize (n : Nat)
  | parseFailed (c : ConnId)
  | inbound (peer : Option Nat) (msg : Json)
  | processFailed (c : ConnId)
  | backpressure (amount : Nat)
  | closedWith (c : ConnId) (code : Nat)

/-- Transport events delivered to the handlers. `opened` carries the
initial buffered-amount cell of the new handle, `message` the UTF-8
decoded payload, `closed` the close code. -/
inductive Event where
  | opened (c : ConnId) (buf : Nat)
  | message (c : ConnId) (payload : String)
  | drain (c : ConnId)
  | closed (c : ConnId) (code : Nat)

/-- Result of one handler invocation. `uncaught` records that an error
propagated out of the handler (only an unrecognized `processMessage`
failure does). -/
structure StepOut where
  st : GState
  obs : List Obs
  logs : List LogEntry
  uncaught : Bool

/-- The `open` handler (lines 70-73): increment `webSocketsCount`, log at
level 1, register the fresh handle with no bound identity. -/
def handleOpen (lvl : Nat) (st : GState) (c : ConnId) (buf : Nat) : StepOut :=
  { st := { st with
      webSocketsCount := st.webSocketsCount + 1
      conns := updateConns st.conns c (some { peer := none, bufferedAmount := buf }) }
    obs := []
    logs := if lvl = 1 then [.connected c] else []
    uncaught := false }

/-- The `try/catch` around `tracker.processMessage` (lines 100-110): a
`TrackerError` is caught, logged at level 1 and answered with
`ws.close()`; any other thrown error propagates out of the handler before
the `ws.close()` line is reached. -/
def dispatchMessage (lvl : Nat) (reg : Registry) (st : GState) (c : ConnId) (json : Json)
    (p : Nat) : StepOut :=
  match reg json p with
  | .ok => { st := st, obs := [.procMsg c json p], logs := [], uncaught := false }
  | .trackerError =>
    { st := st, obs := [.procMsg c json p, .wsClose c]
      logs := if lvl = 1 then [.processFailed c] else []
      uncaught := false }
  | .otherError => { st := st, obs := [.procMsg c json p], logs := [], uncaught := true }

/-- The `message` handler (lines 74-111): log the payload size at level 1;
parse the payload, closing the connection on a parse error; read the
bound identity from the handle, logging the inbound message at level 2;
create and bind a fresh identity when none is bound; then dispatch to the
registry. -/
def handleMessage (lvl : Nat) (reg : Registry) (st : GState) (c : ConnId) (payload : String) :
    StepOut :=
  let sizeLogs := if lvl = 1 then [LogEntry.messageSize payload.length] else []
  match Json.parse payload with
  | none =>
    { st := st, obs := [.wsClose c]
      logs := sizeLogs ++ (if lvl = 1 then [.parseFailed c] else [])
      uncaught := false }
  | some json =>
    let cs := (st.conns c).getD { peer := none, bufferedAmount := 0 }
    let inLogs := if lvl = 2 then [LogEntry.inbound cs.peer json] else []
    match cs.peer with
    | some p =>
      let d := dispatchMessage lvl reg st c json p
      { d with logs := sizeLogs ++ inLogs ++ d.logs }
    | none =>
      let p := st.nextPeer
      let st2 := { st with
        conns := updateConns st.conns c (some { peer := some p, bufferedAmount := cs.bufferedAmount })
        nextPeer := st.nextPeer + 1 }
      let d := dispatchMessage lvl reg st2 c json p
      { d with obs := .peerCreated c p :: d.obs, logs := sizeLogs ++ inLogs ++ d.logs }

/-- The `drain` handler (lines 112-114): at level 1, read
`getBufferedAmount()` and log it; nothing else. -/
def handleDrain (lvl : Nat) (st : GState) (c : ConnId) : StepOut :=
  { st := st, obs := []
    logs := if lvl = 1 then
        [.backpressure ((st.conns c).getD { peer := none, bufferedAmount := 0 }).bufferedAmount]
      else []
    uncaught := false }

/-- The `close` handler (lines 115-125): decrement `webSocketsCount`; when
an identity is bound, delete the binding and call
`tracker.disconnectPeer` with it; log at level 1. The handle leaves the
live set (its entry is dropped). -/
def handleClose (lvl : Nat) (st : GState) (c : ConnId) (code : Nat) : StepOut :=
  let st2 := { st with
    webSocketsCount := st.webSocketsCount - 1
    conns := updateConns st.conns c none }
  let closeLogs := if lvl = 1 then [LogEntry.closedWith c code] else []
  match st.conns c with
  | some cs =>
    match cs.peer with
    | some p => { st := st2, obs := [.discPeer c p], logs := closeLogs, uncaught := false }
    | none => { st := st2, obs := [], logs := closeLogs, uncaught := false }
  | none => { st := st2, obs := [], logs := closeLogs, uncaught := false }

/-- One transport event dispatched to its handler. -/
def step (lvl : Nat) (reg : Registry) (st : GState) : Event → StepOut
  | .opened c buf => handleOpen lvl st c buf
  | .message c payload => handleMessage lvl reg st c payload
  | .drain c => handleDrain lvl st c
  | .closed c code => handleClose lvl st c code

/-- Accumulated result of a run. -/
structure RunOut where
  st : GState
  obs : List Obs
  logs : List LogEntry
  uncaughtCount : Nat

/-- Deliver a sequence of transport events to the handlers, accumulating
effects in order. -/
def runEvents (lvl : Nat) (reg : Registry) (st : GState) : List Event → RunOut
  | [] => { st := st, obs := [], logs := [], uncaughtCount := 0 }
  | ev :: evs =>
    let r := step lvl reg st ev
    let rest := runEvents lvl reg r.st evs
    { st := rest.st, obs := r.obs ++ rest.obs, logs := r.logs ++ rest.logs
      uncaughtCount := (if r.uncaught then 1 else 0) + rest.uncaughtCount }

/-- Transport guarantee, relative to the already `seen` connection ids and
the currently `live` ones: a handle is opened at most once, its
`message`, `drain` and `close` events fire only while it is live, and its
`close` fires at most once, after which no further events fire for it. -/
def validAux (seen live : List ConnId) : List Event → Bool
  | [] => true
  | .opened c _ :: evs => !seen.contains c && validAux (c :: seen) (c :: live) evs
  | .message c _ :: evs => live.contains c && validAux seen live evs
  | .drain c :: evs => live.contains c && validAux seen live evs
  | .closed c _ :: evs => live.contains c && validAux seen (live.erase c) evs

/-- Event sequences the transport can deliver from a fresh start. -/
abbrev ValidTrace (evs : List Event) : Prop := validAux [] [] evs = true

/-- Number of `open` events in a sequence. -/
def countOpens (evs : List Event) : Nat :=
  evs.countP (fun ev => match ev with | .opened _ _ => true | _ => false)

/-- Number of `close` events in a sequence. -/
def countCloses (evs : List Event) : Nat :=
  evs.countP (fun ev => match ev with | .closed _ _ => true | _ => false)

/-- Connection an observable effect is tagged with. -/
def obsConn : Obs → ConnId
  | .procMsg c _ _ => c
  | .discPeer c _ => c
  | .wsClose c => c
  | .peerCreated c _ => c

/-- Number of identity creations recorded for a connection. -/
def createdCount (os : List Obs) (c : ConnId) : Nat :=
  os.countP (fun o => match o with | .peerCreated c2 _ => c2 == c | _ => false)

/-- Number of `disconnectPeer` calls recorded for a connection. -/
def discCount (os : List Obs) (c : ConnId) : Nat :=
  os.countP (fun o => match o with | .discPeer c2 _ => c2 == c | _ => false)

/-- Identity index `q` was handed to the registry on behalf of connection
`c`, either through `processMessage` or through `disconnectPeer`. -/
def usesPeer (c : ConnId) (q : Nat) (os : List Obs) : Prop :=
  (∃ m, Obs.procMsg c m q ∈ os) ∨ Obs.discPeer c q ∈ os

/-- The sequence contains a `close` event for connection `c`. -/
def closedIn (c : ConnId) (evs : List Event) : Prop :=
  ∃ code, Event.closed c code ∈ evs

/-- Identity currently bound to a connection. -/
def boundPeer (st : GState) (c : ConnId) : Option Nat :=
  (st.conns c).bind ConnState.peer

/-- The input does not begin with a decimal digit (so a just-parsed
number cannot be extended by it). -/
def noDigitHead : List Char → Prop
  | [] => True
  | c :: _ => c.isDigit = false

mutual

/-- Fuel sufficient for `parseValue` to parse the serialization of a
value. -/
def jFuel : Json → Nat
  | .num _ => 1
  | .str _ => 1
  | .bool _ => 1
  | .null => 1
  | .arr [] => 1
  | .arr (v :: vs) => 1 + elemsFuel v vs
  | .obj [] => 1
  | .obj ((_, v) :: ms) => 1 + membersFuel v ms
termination_by v => sizeOf v

/-- Fuel sufficient for `parseElems` on a serialized nonempty array. -/
def elemsFuel (v : Json) : List Json → Nat
  | [] => 1 + jFuel v
  | w :: ws => 1 + jFuel v + elemsFuel w ws
termination_by ws => sizeOf v + sizeOf ws

/-- Fuel sufficient for `parseMembers` on a serialized nonempty object. -/
def membersFuel (v : Json) : List (String × Json) → Nat
  | [] => 1 + jFuel v
  | (_, v2) :: ms => 1 + jFuel v + membersFuel v2 ms
termination_by ms => sizeOf v + sizeOf ms

end

/-! ## Lemmas and claim theorems -/

theorem lookup_append (k : String) (l1 l2 : JsObj) :
    (l1 ++ l2).lookup k = ((l1.lookup k).or (l2.lookup k)) := by
  induction l1 with
  | nil => simp [List.lookup]
  | cons p l ih =>
    by_cases h : k = p.1
    · have hb : (k == p.1) = true := by simpa using h
      simp [List.lookup, hb, Option.or]
    · have hb : (k == p.1) = false := by simpa using h
      simp [List.lookup, hb, ih, Option.or]

theorem jsGet_spread (d o : JsObj) (k : String) :
    jsGet (jsSpread d o) k = (jsGet o k).or (jsGet d k) := by
  simp [jsGet, jsSpread, List.reverse_append, lookup_append]

/-- C7: for every configuration object passed to the constructor
(including none at all), each effective settings section reads as the
caller's section where the caller provided a field and as the defaults
otherwise (shallow per-section merge), and the defaults are
`server = (port 8000, host "0.0.0.0")` and `websockets = (path "/",
maxPayloadLength 65536, idleTimeout 240, compression 1 (enabled),
logLevel 0 (silent))`. -/
theorem c7_settings_shallow_merge (raw : Option RawSettings) (k : String) :
    jsGet (mkSettings raw).server k =
      ((jsGet ((raw.getD {}).server.getD []) k).or (jsGet defaultServer k)) ∧
    jsGet (mkSettings raw).websockets k =
      ((jsGet ((raw.getD {}).websockets.getD []) k).or (jsGet defaultWebsockets k)) ∧
    jsGet defaultServer "port" = some (.num 8000) ∧
    jsGet defaultServer "host" = some (.str "0.0.0.0") ∧
    jsGet defaultWebsockets "path" = some (.str "/") ∧
    jsGet defaultWebsockets "maxPayloadLength" = some (.num 65536) ∧
    jsGet defaultWebsockets "idleTimeout" = some (.num 240) ∧
    jsGet defaultWebsockets "compression" = some (.num 1) ∧
    jsGet defaultWebsockets "logLevel" = some (.num 0) := by
  refine ⟨?_, ?_, rfl, rfl, rfl, rfl, rfl, rfl, rfl⟩ <;>
    simp [mkSettings, jsGet_spread]

/-- C8: the promise `run` returns settles exactly once with one of two
outcomes determined by the first listen-callback invocation (later
invocations cannot change it): success on a truthy token, and on a falsy
token a rejection whose error message names the configured host and
port. -/
theorem c8_run_single_resolution (host : String) (port : Nat) (t : Option Nat)
    (ts : List (Option Nat)) :
    runResult host port (t :: ts) = some (listenOutcome host port t) ∧
    (∀ tok, listenOutcome host port (some tok) = .ok ()) ∧
    listenOutcome host port none =
      .error ("failed to listen to " ++ host ++ ":" ++ toString port) :=
  ⟨rfl, fun _ => rfl, rfl⟩

theorem step_lvl_independent (lvl1 lvl2 : Nat) (reg : Registry) (st : GState) (ev : Event) :
    (step lvl1 reg st ev).st = (step lvl2 reg st ev).st ∧
    (step lvl1 reg st ev).obs = (step lvl2 reg st ev).obs ∧
    (step lvl1 reg st ev).uncaught = (step lvl2 reg st ev).uncaught := by
  cases ev with
  | opened c buf => simp [step, handleOpen]
  | drain c => simp [step, handleDrain]
  | closed c code =>
    simp only [step, handleClose]
    cases hc : st.conns c with
    | none => simp
    | some cs => cases hp : cs.peer <;> simp [hp]
  | message c payload =>
    simp only [step, handleMessage]
    cases hj : Json.parse payload with
    | none => simp
    | some json =>
      cases hp : ((st.conns c).getD { peer := none, bufferedAmount := 0 }).peer <;>
        · simp only [dispatchMessage]
          split <;> simp

/-- C10: the configured log level does not interfere with anything but
console output — for every event sequence and any two log levels, the two
runs have the same final state (connection count, identity bindings,
allocation counter), the same observable effects in the same order
(registry calls with the same arguments, identity creations, close
requests) and the same number of uncaught handler failures. -/
theorem c10_loglevel_noninterference (lvl1 lvl2 : Nat) (reg : Registry) (st : GState)
    (evs : List Event) :
    (runEvents lvl1 reg st evs).st = (runEvents lvl2 reg st evs).st ∧
    (runEvents lvl1 reg st evs).obs = (runEvents lvl2 reg st evs).obs ∧
    (runEvents lvl1 reg st evs).uncaughtCount = (runEvents lvl2 reg st evs).uncaughtCount := by
  induction evs generalizing st with
  | nil => exact ⟨rfl, rfl, rfl⟩
  | cons ev evs ih =>
    obtain ⟨h1, h2, h3⟩ := step_lvl_independent lvl1 lvl2 reg st ev
    obtain ⟨g1, g2, g3⟩ := ih (step lvl1 reg st ev).st
    rw [h1] at g1 g2 g3
    simp only [runEvents, h1, h2, h3, g1, g2, g3, and_self]

/-- C5: a payload that fails to decode makes the message handler request
a close of the connection and nothing else — the state (count, bindings,
allocation counter) is untouched, no registry call and no identity
creation is observable, and nothing propagates out of the handler; and in
the open/malformed-message/close scenario the connection count returns to
its pre-open value with the close request the only observable effect. -/
theorem c5_decode_failure_closes (lvl : Nat) (reg : Registry) (st : GState) (c : ConnId)
    (payload : String) (buf code : Nat) (h : Json.parse payload = none) :
    (handleMessage lvl reg st c payload).st = st ∧
    (handleMessage lvl reg st c payload).obs = [.wsClose c] ∧
    (handleMessage lvl reg st c payload).uncaught = false ∧
    (runEvents lvl reg st [.opened c buf, .message c payload, .closed c code]).st.webSocketsCount
      = st.webSocketsCount ∧
    (runEvents lvl reg st [.opened c buf, .message c payload, .closed c code]).obs
      = [.wsClose c] := by
  and_intros <;>
    simp [runEvents, step, handleOpen, handleMessage, handleClose, updateConns, h]

theorem c5_decode_failure_closes_witness :
    Json.parse "x" = none ∧
    (handleMessage 0 (fun _ _ => ProcOutcome.ok) GState.initial 2 "x").obs = [Obs.wsClose 2] ∧
    (runEvents 0 (fun _ _ => ProcOutcome.ok) GState.initial
      [.opened 2 0, .message 2 "x", .closed 2 1000]).st.webSocketsCount = 0 :=
  ⟨rfl,
   (c5_decode_failure_closes 0 (fun _ _ => ProcOutcome.ok) GState.initial 2 "x" 0 1000 rfl).2.1,
   (c5_decode_failure_closes 0 (fun _ _ => ProcOutcome.ok) GState.initial 2 "x" 0 1000 rfl).2.2.2.1⟩

/-- C4: when the registry's `processMessage` throws a `TrackerError`, the
message handler catches it (nothing propagates), logs it at level 1, and
requests a close of the connection; when `processMessage` throws anything
else, the failure propagates uncaught out of the handler and no close is
requested. -/
theorem c4_registry_failure_classification (lvl : Nat) (reg : Registry) (st : GState)
    (c : ConnId) (payload : String) (msg : Json) (cs : ConnState)
    (hparse : Json.parse payload = some msg) (hconn : st.conns c = some cs) :
    (reg msg (cs.peer.getD st.nextPeer) = .trackerError →
      (handleMessage lvl reg st c payload).uncaught = false ∧
      Obs.wsClose c ∈ (handleMessage lvl reg st c payload).obs ∧
      (lvl = 1 → LogEntry.processFailed c ∈ (handleMessage lvl reg st c payload).logs)) ∧
    (reg msg (cs.peer.getD st.nextPeer) = .otherError →
      (handleMessage lvl reg st c payload).uncaught = true ∧
      Obs.wsClose c ∉ (handleMessage lvl reg st c payload).obs) := by
  cases hp : cs.peer with
  | some p =>
    refine ⟨fun hr => ?_, fun hr => ?_⟩ <;>
      · simp only [Option.getD, hp] at hr
        simp [handleMessage, hparse, hconn, hp, dispatchMessage, hr]
  | none =>
    refine ⟨fun hr => ?_, fun hr => ?_⟩ <;>
      · simp only [Option.getD, hp] at hr
        simp [handleMessage, hparse, hconn, hp, dispatchMessage, hr]

theorem c4_registry_failure_classification_witness :
    Json.parse "1" = some (Json.num 1) ∧
    (updateConns GState.initial.conns 2 (some { peer := none, bufferedAmount := 0 })) 2
      = some { peer := none, bufferedAmount := 0 } ∧
    ((handleMessage 1 (fun _ _ => ProcOutcome.trackerError)
        { webSocketsCount := 1,
          conns := updateConns GState.initial.conns 2 (some { peer := none, bufferedAmount := 0 }),
          nextPeer := 0 } 2 "1").uncaught = false ∧
      Obs.wsClose 2 ∈ (handleMessage 1 (fun _ _ => ProcOutcome.trackerError)
        { webSocketsCount := 1,
          conns := updateConns GState.initial.conns 2 (some { peer := none, bufferedAmount := 0 }),
          nextPeer := 0 } 2 "1").obs ∧
      (1 = 1 → LogEntry.processFailed 2 ∈ (handleMessage 1 (fun _ _ => ProcOutcome.trackerError)
        { webSocketsCount := 1,
          conns := updateConns GState.initial.conns 2 (some { peer := none, bufferedAmount := 0 }),
          nextPeer := 0 } 2 "1").logs)) :=
  ⟨rfl, rfl,
   (c4_registry_failure_classification 1 (fun _ _ => ProcOutcome.trackerError) _ 2 "1"
      (Json.num 1) { peer := none, bufferedAmount := 0 } rfl rfl).1 rfl⟩

theorem c6_drain_level2_counterexample :
    ((2 : Nat) = 1 ∨ (2 : Nat) = 2) ∧
    (handleDrain 2
      { webSocketsCount := 1,
        conns := updateConns GState.initial.conns 0 (some { peer := none, bufferedAmount := 5 }),
        nextPeer := 0 } 0).logs = [] :=
  ⟨Or.inr rfl, rfl⟩

/-- C6 (amended): on a drain transport signal the gateway logs the
connection's currently buffered outbound byte count exactly when the
configured log level equals 1 — at any other level, including level 2, it
logs nothing — and the drain handler performs no other action: the state
is untouched, there is no observable effect and nothing propagates. -/
theorem c6_drain_pure_diagnostic (lvl : Nat) (st : GState) (c : ConnId) (cs : ConnState)
    (h : st.conns c = some cs) :
    (handleDrain lvl st c).st = st ∧
    (handleDrain lvl st c).obs = [] ∧
    (handleDrain lvl st c).uncaught = false ∧
    (lvl = 1 → (handleDrain lvl st c).logs = [.backpressure cs.bufferedAmount]) ∧
    (lvl ≠ 1 → (handleDrain lvl st c).logs = []) := by
  refine ⟨rfl, rfl, rfl, fun hl => ?_, fun hl => ?_⟩ <;> simp [handleDrain, h, hl]

theorem c6_drain_pure_diagnostic_witness :
    (updateConns GState.initial.conns 0 (some { peer := none, bufferedAmount := 5 })) 0
      = some { peer := none, bufferedAmount := 5 } ∧
    (handleDrain 1
      { webSocketsCount := 1,
        conns := updateConns GState.initial.conns 0 (some { peer := none, bufferedAmount := 5 }),
        nextPeer := 0 } 0).logs = [.backpressure 5] :=
  ⟨rfl,
   (c6_drain_pure_diagnostic 1 _ 0 { peer := none, bufferedAmount := 5 } rfl).2.2.2.1 rfl⟩

theorem handleMessage_count (lvl : Nat) (reg : Registry) (st : GState) (c : ConnId)
    (payload : String) :
    (handleMessage lvl reg st c payload).st.webSocketsCount = st.webSocketsCount := by
  simp only [handleMessage]
  cases hj : Json.parse payload with
  | none => rfl
  | some json =>
    cases hp : ((st.conns c).getD { peer := none, bufferedAmount := 0 }).peer <;>
      · simp only [dispatchMessage]
        split <;> rfl

theorem validAux_take : ∀ (evs : List Event) (seen live : List ConnId) (i : Nat),
    validAux seen live evs = true → validAux seen live (evs.take i) = true := by
  intro evs
  induction evs with
  | nil => intro seen live i h; simpa using h
  | cons ev evs ih =>
    intro seen live i h
    cases i with
    | zero => rfl
    | succ j =>
      cases ev <;>
        · simp only [List.take_succ_cons, validAux, Bool.and_eq_true] at h ⊢
          exact ⟨h.1, ih _ _ j h.2⟩

theorem step_closed_count (lvl : Nat) (reg : Registry) (st : GState) (c : ConnId) (code : Nat) :
    (step lvl reg st (.closed c code)).st.webSocketsCount = st.webSocketsCount - 1 := by
  simp only [step, handleClose]
  cases hc : st.conns c with
  | none => rfl
  | some cs => cases hp : cs.peer <;> simp [hp]

theorem countOpens_cons (ev : Event) (evs : List Event) :
    countOpens (ev :: evs) =
      countOpens evs + (match ev with | .opened _ _ => 1 | _ => 0) := by
  cases ev <;> simp [countOpens, List.countP_cons]

theorem countCloses_cons (ev : Event) (evs : List Event) :
    countCloses (ev :: evs) =
      countCloses evs + (match ev with | .closed _ _ => 1 | _ => 0) := by
  cases ev <;> simp [countCloses, List.countP_cons]

theorem runEvents_count_aux (lvl : Nat) (reg : Registry) :
    ∀ (evs : List Event) (st : GState) (seen live : List ConnId),
      validAux seen live evs = true → live.Nodup → (∀ x ∈ live, x ∈ seen) →
      st.webSocketsCount = live.length →
      (runEvents lvl reg st evs).st.webSocketsCount =
        st.webSocketsCount + countOpens evs - countCloses evs ∧
      0 ≤ (runEvents lvl reg st evs).st.webSocketsCount := by
  intro evs
  induction evs with
  | nil =>
    intro st seen live _ _ _ hcount
    refine ⟨by simp [runEvents, countOpens, countCloses], ?_⟩
    simp [runEvents, hcount]
  | cons ev evs ih =>
    intro st seen live hv hnd hsub hcount
    cases ev with
    | opened c buf =>
      simp only [validAux, Bool.and_eq_true] at hv
      obtain ⟨hnotin, hv'⟩ := hv
      have hc : c ∉ live := fun hmem => (by simpa using hnotin : c ∉ seen) (hsub c hmem)
      have hstep : (step lvl reg st (Event.opened c buf)).st.webSocketsCount
          = st.webSocketsCount + 1 := by simp [step, handleOpen]
      obtain ⟨ha, hb⟩ := ih (step lvl reg st (Event.opened c buf)).st (c :: seen) (c :: live) hv'
        (List.nodup_cons.mpr ⟨hc, hnd⟩)
        (fun x hx => by
          rcases List.mem_cons.mp hx with h | h
          · exact List.mem_cons.mpr (Or.inl h)
          · exact List.mem_cons.mpr (Or.inr (hsub x h)))
        (by rw [hstep, hcount]; simp [List.length_cons])
      refine ⟨?_, hb⟩
      show (runEvents lvl reg (step lvl reg st (Event.opened c buf)).st evs).st.webSocketsCount = _
      rw [ha, hstep, countOpens_cons, countCloses_cons]
      simp
      omega
    | message c payload =>
      simp only [validAux, Bool.and_eq_true] at hv
      obtain ⟨_, hv'⟩ := hv
      have hstep : (step lvl reg st (Event.message c payload)).st.webSocketsCount
          = st.webSocketsCount := by rw [step, handleMessage_count]
      obtain ⟨ha, hb⟩ := ih (step lvl reg st (Event.message c payload)).st seen live hv' hnd hsub
        (by rw [hstep]; exact hcount)
      refine ⟨?_, hb⟩
      show (runEvents lvl reg (step lvl reg st (Event.message c payload)).st
        evs).st.webSocketsCount = _
      rw [ha, hstep, countOpens_cons, countCloses_cons]
      simp
    | drain c =>
      simp only [validAux, Bool.and_eq_true] at hv
      obtain ⟨_, hv'⟩ := hv
      have hstep : (step lvl reg st (Event.drain c)).st.webSocketsCount
          = st.webSocketsCount := by simp [step, handleDrain]
      obtain ⟨ha, hb⟩ := ih (step lvl reg st (Event.drain c)).st seen live hv' hnd hsub
        (by rw [hstep]; exact hcount)
      refine ⟨?_, hb⟩
      show (runEvents lvl reg (step lvl reg st (Event.drain c)).st evs).st.webSocketsCount = _
      rw [ha, hstep, countOpens_cons, countCloses_cons]
      simp
    | closed c code =>
      simp only [validAux, Bool.and_eq_true] at hv
      obtain ⟨hin, hv'⟩ := hv
      have hcmem : c ∈ live := by simpa using hin
      have hlen : live.length ≠ 0 := by
        intro h0
        rw [List.length_eq_zero] at h0
        simp [h0] at hcmem
      obtain ⟨ha, hb⟩ := ih (step lvl reg st (.closed c code)).st seen (live.erase c) hv'
        (hnd.erase c)
        (fun x hx => hsub x (List.mem_of_mem_erase hx))
        (by
          rw [step_closed_count, hcount, List.length_erase_of_mem hcmem]
          omega)
      refine ⟨?_, hb⟩
      show (runEvents lvl reg (step lvl reg st (Event.closed c code)).st evs).st.webSocketsCount = _
      rw [ha, step_closed_count, countOpens_cons, countCloses_cons]
      simp
      omega

theorem runEvents_cons_obs (lvl : Nat) (reg : Registry) (st : GState) (ev : Event)
    (evs : List Event) :
    (runEvents lvl reg st (ev :: evs)).obs =
      (step lvl reg st ev).obs ++ (runEvents lvl reg (step lvl reg st ev).st evs).obs := rfl

theorem createdCount_append (a b : List Obs) (c : ConnId) :
    createdCount (a ++ b) c = createdCount a c + createdCount b c := by
  simp [createdCount, List.countP_append]

theorem discCount_append (a b : List Obs) (c : ConnId) :
    discCount (a ++ b) c = discCount a c + discCount b c := by
  simp [discCount, List.countP_append]

theorem usesPeer_append (c : ConnId) (q : Nat) (a b : List Obs) :
    usesPeer c q (a ++ b) ↔ usesPeer c q a ∨ usesPeer c q b := by
  simp only [usesPeer, List.mem_append, exists_or]
  tauto

theorem no_mention_counts (os : List Obs) (c : ConnId)
    (h : ∀ o ∈ os, obsConn o ≠ c) :
    createdCount os c = 0 ∧ discCount os c = 0 ∧ ∀ q, ¬ usesPeer c q os := by
  refine ⟨?_, ?_, ?_⟩
  · refine List.countP_eq_zero.mpr (fun o ho => ?_)
    cases o with
    | peerCreated c2 q => have := h _ ho; simp [obsConn] at this; simp [this]
    | procMsg c2 m q => simp
    | discPeer c2 q => simp
    | wsClose c2 => simp
  · refine List.countP_eq_zero.mpr (fun o ho => ?_)
    cases o with
    | discPeer c2 q => have := h _ ho; simp [obsConn] at this; simp [this]
    | procMsg c2 m q => simp
    | peerCreated c2 q => simp
    | wsClose c2 => simp
  · rintro q (⟨m, hm⟩ | hm)
    · exact h _ hm rfl
    · exact h _ hm rfl

theorem closedIn_cons_opened (c c0 : ConnId) (b : Nat) (evs : List Event) :
    closedIn c (.opened c0 b :: evs) ↔ closedIn c evs := by
  simp [closedIn]

theorem closedIn_cons_message (c c0 : ConnId) (payload : String) (evs : List Event) :
    closedIn c (.message c0 payload :: evs) ↔ closedIn c evs := by
  simp [closedIn]

theorem closedIn_cons_drain (c c0 : ConnId) (evs : List Event) :
    closedIn c (.drain c0 :: evs) ↔ closedIn c evs := by
  simp [closedIn]

theorem closedIn_cons_closed (c c0 : ConnId) (code : Nat) (evs : List Event) :
    closedIn c (.closed c0 code :: evs) ↔ (c0 = c ∨ closedIn c evs) := by
  simp only [closedIn, List.mem_cons]
  constructor
  · rintro ⟨cd, h | h⟩
    · injection h with h1 h2
      exact Or.inl h1.symm
    · exact Or.inr ⟨cd, h⟩
  · rintro (rfl | ⟨cd, h⟩)
    · exact ⟨code, Or.inl rfl⟩
    · exact ⟨cd, Or.inr h⟩

theorem updateConns_same (f : ConnId → Option ConnState) (c : ConnId) (v : Option ConnState) :
    updateConns f c v c = v := by simp [updateConns]

theorem updateConns_other (f : ConnId → Option ConnState) (c : ConnId) (v : Option ConnState)
    (c2 : ConnId) (h : c2 ≠ c) : updateConns f c v c2 = f c2 := by simp [updateConns, h]

theorem two_creations_eq (os : List Obs) (c : ConnId) (h : createdCount os c ≤ 1)
    (q q' : Nat) (h1 : Obs.peerCreated c q ∈ os) (h2 : Obs.peerCreated c q' ∈ os) : q = q' := by
  induction os with
  | nil => simp at h1
  | cons o os ih =>
    rcases List.mem_cons.mp h1 with e1 | m1 <;> rcases List.mem_cons.mp h2 with e2 | m2
    · rw [← e1] at e2; injection e2 with _ hq; exact hq.symm
    · exfalso
      rw [← e1] at h
      simp only [createdCount, List.countP_cons, beq_self_eq_true, if_true] at h
      have hpos : 0 < createdCount os c := by
        refine List.countP_pos.mpr ⟨_, m2, ?_⟩
        simp
      simp only [createdCount] at hpos
      omega
    · exfalso
      rw [← e2] at h
      simp only [createdCount, List.countP_cons, beq_self_eq_true, if_true] at h
      have hpos : 0 < createdCount os c := by
        refine List.countP_pos.mpr ⟨_, m1, ?_⟩
        simp
      simp only [createdCount] at hpos
      omega
    · refine ih ?_ m1 m2
      simp only [createdCount, List.countP_cons] at h ⊢
      omega

theorem boundPeer_of_peer_some (st : GState) (c : ConnId) (p : Nat)
    (hp : ((st.conns c).getD { peer := none, bufferedAmount := 0 }).peer = some p) :
    boundPeer st c = some p := by
  cases hc : st.conns c with
  | none => rw [hc] at hp; simp at hp
  | some cs => rw [hc] at hp; simp at hp; simp [boundPeer, hc, hp]

theorem boundPeer_of_peer_none (st : GState) (c : ConnId)
    (hp : ((st.conns c).getD { peer := none, bufferedAmount := 0 }).peer = none) :
    boundPeer st c = none := by
  cases hc : st.conns c with
  | none => simp [boundPeer, hc]
  | some cs => rw [hc] at hp; simp at hp; simp [boundPeer, hc, hp]

theorem handleMessage_shape (lvl : Nat) (reg : Registry) (st : GState) (c0 : ConnId)
    (payload : String) :
    ((handleMessage lvl reg st c0 payload).st = st ∧
      (handleMessage lvl reg st c0 payload).obs = [.wsClose c0]) ∨
    (∃ p json, boundPeer st c0 = some p ∧ (handleMessage lvl reg st c0 payload).st = st ∧
      ((handleMessage lvl reg st c0 payload).obs = [.procMsg c0 json p] ∨
       (handleMessage lvl reg st c0 payload).obs = [.procMsg c0 json p, .wsClose c0])) ∨
    (∃ json buf2, boundPeer st c0 = none ∧
      (handleMessage lvl reg st c0 payload).st =
        { webSocketsCount := st.webSocketsCount,
          conns := updateConns st.conns c0
            (some { peer := some st.nextPeer, bufferedAmount := buf2 }),
          nextPeer := st.nextPeer + 1 } ∧
      ((handleMessage lvl reg st c0 payload).obs =
          [.peerCreated c0 st.nextPeer, .procMsg c0 json st.nextPeer] ∨
       (handleMessage lvl reg st c0 payload).obs =
          [.peerCreated c0 st.nextPeer, .procMsg c0 json st.nextPeer, .wsClose c0])) := by
  cases hj : Json.parse payload with
  | none =>
    left
    constructor <;> simp [handleMessage, hj]
  | some json =>
    cases hp : ((st.conns c0).getD { peer := none, bufferedAmount := 0 }).peer with
    | some p =>
      right; left
      refine ⟨p, json, boundPeer_of_peer_some st c0 p hp, ?_, ?_⟩
      · cases hr : reg json p <;> simp [handleMessage, hj, hp, dispatchMessage, hr]
      · cases hr : reg json p
        · left; simp [handleMessage, hj, hp, dispatchMessage, hr]
        · right; simp [handleMessage, hj, hp, dispatchMessage, hr]
        · left; simp [handleMessage, hj, hp, dispatchMessage, hr]
    | none =>
      right; right
      refine ⟨json, ((st.conns c0).getD { peer := none, bufferedAmount := 0 }).bufferedAmount,
        boundPeer_of_peer_none st c0 hp, ?_, ?_⟩
      · cases hr : reg json st.nextPeer <;> simp [handleMessage, hj, hp, dispatchMessage, hr]
      · cases hr : reg json st.nextPeer
        · left; simp [handleMessage, hj, hp, dispatchMessage, hr]
        · right; simp [handleMessage, hj, hp, dispatchMessage, hr]
        · left; simp [handleMessage, hj, hp, dispatchMessage, hr]

theorem step_closed_shape (lvl : Nat) (reg : Registry) (st : GState) (c0 : ConnId) (code : Nat) :
    (step lvl reg st (.closed c0 code)).st.conns = updateConns st.conns c0 none ∧
    (boundPeer st c0 = none → (step lvl reg st (.closed c0 code)).obs = []) ∧
    (∀ p, boundPeer st c0 = some p →
      (step lvl reg st (.closed c0 code)).obs = [.discPeer c0 p]) := by
  simp only [step, handleClose]
  cases hc : st.conns c0 with
  | none => simp [boundPeer, hc]
  | some cs => cases hp : cs.peer <;> simp [boundPeer, hc, hp]

theorem runEvents_peer_discipline (lvl : Nat) (reg : Registry) (c : ConnId) :
    ∀ (evs : List Event) (st : GState) (seen live : List ConnId),
      validAux seen live evs = true → live.Nodup → (∀ x ∈ live, x ∈ seen) →
      ((c ∈ seen ∧ c ∉ live → ∀ o ∈ (runEvents lvl reg st evs).obs, obsConn o ≠ c) ∧
       ((c ∉ seen ∨ (c ∈ live ∧ boundPeer st c = none)) →
         createdCount (runEvents lvl reg st evs).obs c ≤ 1 ∧
         (∀ q, usesPeer c q (runEvents lvl reg st evs).obs →
           Obs.peerCreated c q ∈ (runEvents lvl reg st evs).obs) ∧
         (closedIn c evs →
           discCount (runEvents lvl reg st evs).obs c =
             createdCount (runEvents lvl reg st evs).obs c) ∧
         (¬ closedIn c evs → discCount (runEvents lvl reg st evs).obs c = 0)) ∧
       (∀ p, c ∈ live → boundPeer st c = some p →
         createdCount (runEvents lvl reg st evs).obs c = 0 ∧
         (∀ q, usesPeer c q (runEvents lvl reg st evs).obs → q = p) ∧
         (closedIn c evs → discCount (runEvents lvl reg st evs).obs c = 1) ∧
         (¬ closedIn c evs → discCount (runEvents lvl reg st evs).obs c = 0))) := by
  intro evs
  induction evs with
  | nil =>
    intro st seen live _ _ _
    refine ⟨fun _ => by simp [runEvents], fun _ => ?_, fun p _ _ => ?_⟩
    · refine ⟨by simp [runEvents, createdCount], fun q hq => ?_, fun hclosed => ?_,
        fun _ => by simp [runEvents, discCount]⟩
      · simp [runEvents, usesPeer] at hq
      · rcases hclosed with ⟨code, hmem⟩; simp at hmem
    · refine ⟨by simp [runEvents, createdCount], fun q hq => ?_, fun hclosed => ?_,
        fun _ => by simp [runEvents, discCount]⟩
      · simp [runEvents, usesPeer] at hq
      · rcases hclosed with ⟨code, hmem⟩; simp at hmem
  | cons ev evs ih =>
    intro st seen live hv hnd hsub
    cases ev with
    | opened c0 buf =>
      simp only [validAux, Bool.and_eq_true] at hv
      obtain ⟨hnotseen', hv'⟩ := hv
      have hc0seen : c0 ∉ seen := by simpa using hnotseen'
      have hc0live : c0 ∉ live := fun hm => hc0seen (hsub _ hm)
      have hnd' : (c0 :: live).Nodup := List.nodup_cons.mpr ⟨hc0live, hnd⟩
      have hsub' : ∀ x ∈ c0 :: live, x ∈ c0 :: seen := by
        intro x hx
        rcases List.mem_cons.mp hx with h | h
        · exact List.mem_cons.mpr (Or.inl h)
        · exact List.mem_cons.mpr (Or.inr (hsub x h))
      have hobs : (runEvents lvl reg st (Event.opened c0 buf :: evs)).obs
          = (runEvents lvl reg (step lvl reg st (Event.opened c0 buf)).st evs).obs := rfl
      have hbound_other : ∀ x, x ≠ c0 →
          boundPeer (step lvl reg st (Event.opened c0 buf)).st x = boundPeer st x := by
        intro x hx
        simp [step, handleOpen, boundPeer, updateConns, hx]
      have hbound_c0 : boundPeer (step lvl reg st (Event.opened c0 buf)).st c0 = none := by
        simp [step, handleOpen, boundPeer, updateConns]
      obtain ⟨IH1, IH2, IH3⟩ :=
        ih (step lvl reg st (Event.opened c0 buf)).st (c0 :: seen) (c0 :: live) hv' hnd' hsub'
      rw [hobs, closedIn_cons_opened]
      refine ⟨?_, ?_, ?_⟩
      · rintro ⟨hcs, hcl⟩
        have hne : c ≠ c0 := fun h => hc0seen (h ▸ hcs)
        refine IH1 ⟨List.mem_cons.mpr (Or.inr hcs), fun h => ?_⟩
        rcases List.mem_cons.mp h with h | h
        · exact hne h
        · exact hcl h
      · intro hcase
        apply IH2
        rcases hcase with hns | ⟨hlv, hbd⟩
        · by_cases hcc : c = c0
          · subst hcc
            right
            exact ⟨List.mem_cons_self _ _, hbound_c0⟩
          · left
            intro hm
            rcases List.mem_cons.mp hm with h | h
            · exact hcc h
            · exact hns h
        · have hne : c ≠ c0 := fun h => hc0live (h ▸ hlv)
          right
          exact ⟨List.mem_cons.mpr (Or.inr hlv), (hbound_other c hne).trans hbd⟩
      · intro p hlv hbd
        have hne : c ≠ c0 := fun h => hc0live (h ▸ hlv)
        exact IH3 p (List.mem_cons.mpr (Or.inr hlv)) ((hbound_other c hne).trans hbd)
    | drain c0 =>
      simp only [validAux, Bool.and_eq_true] at hv
      obtain ⟨_, hv'⟩ := hv
      have hobs : (runEvents lvl reg st (Event.drain c0 :: evs)).obs
          = (runEvents lvl reg st evs).obs := rfl
      rw [hobs, closedIn_cons_drain]
      exact ih st seen live hv' hnd hsub
    | closed c0 code =>
      simp only [validAux, Bool.and_eq_true] at hv
      obtain ⟨hlc0, hv'⟩ := hv
      have hc0live : c0 ∈ live := by simpa using hlc0
      have hc0seen : c0 ∈ seen := hsub _ hc0live
      obtain ⟨hconns, hobs_none, hobs_some⟩ := step_closed_shape lvl reg st c0 code
      have hsub' : ∀ x ∈ live.erase c0, x ∈ seen :=
        fun x hx => hsub x (List.mem_of_mem_erase hx)
      have hbound_other : ∀ x, x ≠ c0 →
          boundPeer (step lvl reg st (Event.closed c0 code)).st x = boundPeer st x := by
        intro x hx
        simp [boundPeer, hconns, updateConns, hx]
      have hcnoterase : c0 ∉ live.erase c0 := fun hm =>
        absurd rfl (((List.Nodup.mem_erase_iff hnd).mp hm).1)
      obtain ⟨IH1, IH2, IH3⟩ :=
        ih (step lvl reg st (Event.closed c0 code)).st seen (live.erase c0) hv'
          (hnd.erase c0) hsub'
      have hobs : (runEvents lvl reg st (Event.closed c0 code :: evs)).obs
          = (step lvl reg st (Event.closed c0 code)).obs ++
            (runEvents lvl reg (step lvl reg st (Event.closed c0 code)).st evs).obs := rfl
      rw [hobs, closedIn_cons_closed]
      refine ⟨?_, ?_, ?_⟩
      · rintro ⟨hcs, hcl⟩
        have hne : c ≠ c0 := fun h => hcl (h ▸ hc0live)
        intro o ho
        rcases List.mem_append.mp ho with h | h
        · rcases hbp : boundPeer st c0 with _ | p
          · rw [hobs_none hbp] at h; simp at h
          · rw [hobs_some p hbp] at h
            simp at h
            rw [h]
            simpa [obsConn] using hne.symm
        · exact IH1 ⟨hcs, fun hm => hcl (List.mem_of_mem_erase hm)⟩ o h
      · intro hcase
        rcases hcase with hns | ⟨hlv, hbd⟩
        · have hne : c ≠ c0 := fun h => hns (h ▸ hc0seen)
          have hO1 : ∀ o ∈ (step lvl reg st (Event.closed c0 code)).obs, obsConn o ≠ c := by
            intro o ho
            rcases hbp : boundPeer st c0 with _ | p
            · rw [hobs_none hbp] at ho; simp at ho
            · rw [hobs_some p hbp] at ho
              simp at ho
              rw [ho]
              simpa [obsConn] using hne.symm
          obtain ⟨z1, z2, z3⟩ := no_mention_counts _ c hO1
          obtain ⟨J1, J2, J3, J4⟩ := IH2 (Or.inl hns)
          refine ⟨?_, ?_, ?_, ?_⟩
          · rw [createdCount_append, z1]; simpa using J1
          · intro q hq
            rcases (usesPeer_append c q _ _).mp hq with h | h
            · exact absurd h (z3 q)
            · exact List.mem_append.mpr (Or.inr (J2 q h))
          · rintro (rfl | hcl)
            · exact absurd hc0seen hns
            · rw [discCount_append, createdCount_append, z1, z2]
              simpa using J3 hcl
          · intro hncl
            rw [discCount_append, z2]
            have : ¬ closedIn c evs := fun h => hncl (Or.inr h)
            simpa using J4 this
        · by_cases hcc : c = c0
          · subst hcc
            have hO1 : (step lvl reg st (Event.closed c code)).obs = [] := hobs_none hbd
            have hrest : ∀ o ∈ (runEvents lvl reg
                (step lvl reg st (Event.closed c code)).st evs).obs, obsConn o ≠ c :=
              IH1 ⟨hc0seen, hcnoterase⟩
            obtain ⟨z1, z2, z3⟩ := no_mention_counts _ c hrest
            refine ⟨?_, ?_, ?_, ?_⟩
            · rw [createdCount_append, hO1, z1]; simp [createdCount]
            · intro q hq
              rcases (usesPeer_append c q _ _).mp hq with h | h
              · rw [hO1] at h
                rcases h with ⟨m, hm⟩ | hm <;> simp at hm
              · exact absurd h (z3 q)
            · intro _
              rw [discCount_append, createdCount_append, hO1, z1, z2]
              simp [createdCount, discCount]
            · intro _
              rw [discCount_append, hO1, z2]
              simp [discCount]
          · have hne : c ≠ c0 := hcc
            have hO1 : ∀ o ∈ (step lvl reg st (Event.closed c0 code)).obs, obsConn o ≠ c := by
              intro o ho
              rcases hbp : boundPeer st c0 with _ | p
              · rw [hobs_none hbp] at ho; simp at ho
              · rw [hobs_some p hbp] at ho
                simp at ho
                rw [ho]
                simpa [obsConn] using hne.symm
            obtain ⟨z1, z2, z3⟩ := no_mention_counts _ c hO1
            obtain ⟨J1, J2, J3, J4⟩ := IH2 (Or.inr ⟨(List.Nodup.mem_erase_iff hnd).mpr ⟨hne, hlv⟩,
              (hbound_other c hne).trans hbd⟩)
            refine ⟨?_, ?_, ?_, ?_⟩
            · rw [createdCount_append, z1]; simpa using J1
            · intro q hq
              rcases (usesPeer_append c q _ _).mp hq with h | h
              · exact absurd h (z3 q)
              · exact List.mem_append.mpr (Or.inr (J2 q h))
            · rintro (rfl | hcl)
              · exact absurd rfl hne.symm
              · rw [discCount_append, createdCount_append, z1, z2]
                simpa using J3 hcl
            · intro hncl
              rw [discCount_append, z2]
              have : ¬ closedIn c evs := fun h => hncl (Or.inr h)
              simpa using J4 this
      · intro p hlv hbd
        by_cases hcc : c = c0
        · subst hcc
          have hO1 : (step lvl reg st (Event.closed c code)).obs = [.discPeer c p] :=
            hobs_some p hbd
          have hrest : ∀ o ∈ (runEvents lvl reg
              (step lvl reg st (Event.closed c code)).st evs).obs, obsConn o ≠ c :=
            IH1 ⟨hc0seen, hcnoterase⟩
          obtain ⟨z1, z2, z3⟩ := no_mention_counts _ c hrest
          refine ⟨?_, ?_, ?_, ?_⟩
          · rw [createdCount_append, hO1, z1]; simp [createdCount]
          · intro q hq
            rcases (usesPeer_append c q _ _).mp hq with h | h
            · rw [hO1] at h
              rcases h with ⟨m, hm⟩ | hm
              · simp at hm
              · simp at hm; exact hm
            · exact absurd h (z3 q)
          · intro _
            rw [discCount_append, hO1, z2]
            simp [discCount]
          · intro hncl
            exact absurd (Or.inl rfl) hncl
        · have hne : c ≠ c0 := hcc
          have hO1 : ∀ o ∈ (step lvl reg st (Event.closed c0 code)).obs, obsConn o ≠ c := by
            intro o ho
            rcases hbp : boundPeer st c0 with _ | p2
            · rw [hobs_none hbp] at ho; simp at ho
            · rw [hobs_some p2 hbp] at ho
              simp at ho
              rw [ho]
              simpa [obsConn] using hne.symm
          obtain ⟨z1, z2, z3⟩ := no_mention_counts _ c hO1
          obtain ⟨J1, J2, J3, J4⟩ := IH3 p ((List.Nodup.mem_erase_iff hnd).mpr ⟨hne, hlv⟩)
            ((hbound_other c hne).trans hbd)
          refine ⟨?_, ?_, ?_, ?_⟩
          · rw [createdCount_append, z1]; simpa using J1
          · intro q hq
            rcases (usesPeer_append c q _ _).mp hq with h | h
            · exact absurd h (z3 q)
            · exact J2 q h
          · rintro (rfl | hcl)
            · exact absurd rfl hne.symm
            · rw [discCount_append, z2]
              simpa using J3 hcl
          · intro hncl
            rw [discCount_append, z2]
            have : ¬ closedIn c evs := fun h => hncl (Or.inr h)
            simpa using J4 this
    | message c0 payload =>
      simp only [validAux, Bool.and_eq_true] at hv
      obtain ⟨hlc0, hv'⟩ := hv
      have hc0live : c0 ∈ live := by simpa using hlc0
      have hc0seen : c0 ∈ seen := hsub _ hc0live
      have hstep_eq : step lvl reg st (Event.message c0 payload)
          = handleMessage lvl reg st c0 payload := rfl
      have hobs : (runEvents lvl reg st (Event.message c0 payload :: evs)).obs
          = (handleMessage lvl reg st c0 payload).obs ++
            (runEvents lvl reg (handleMessage lvl reg st c0 payload).st evs).obs := rfl
      rw [hobs, closedIn_cons_message]
      rcases handleMessage_shape lvl reg st c0 payload with
        ⟨hms, hmo⟩ | ⟨p0, json, hbp0, hms, hmo⟩ | ⟨json, buf2, hbp0, hms, hmo⟩
      · -- decode failure: state unchanged, only a close request
        rw [hmo, hms]
        obtain ⟨IH1, IH2, IH3⟩ := ih st seen live hv' hnd hsub
        have hO1 : ∀ o ∈ [Obs.wsClose c0], obsConn o ≠ c ∨ c = c0 := by
          intro o ho; simp at ho; rw [ho]; by_cases h : c = c0
          · exact Or.inr h
          · exact Or.inl (by simpa [obsConn] using fun hh => h hh.symm)
        have hz : createdCount [Obs.wsClose c0] c = 0 ∧ discCount [Obs.wsClose c0] c = 0 ∧
            ∀ q, ¬ usesPeer c q [Obs.wsClose c0] := by
          refine ⟨by simp [createdCount], by simp [discCount], ?_⟩
          rintro q (⟨m, hm⟩ | hm) <;> simp at hm
        obtain ⟨z1, z2, z3⟩ := hz
        refine ⟨?_, ?_, ?_⟩
        · rintro ⟨hcs, hcl⟩
          have hne : c ≠ c0 := fun h => hcl (h ▸ hc0live)
          intro o ho
          rcases List.mem_append.mp ho with h | h
          · simp at h; rw [h]; simpa [obsConn] using hne.symm
          · exact IH1 ⟨hcs, hcl⟩ o h
        · intro hcase
          obtain ⟨J1, J2, J3, J4⟩ := IH2 hcase
          refine ⟨?_, ?_, ?_, ?_⟩
          · rw [createdCount_append, z1]; simpa using J1
          · intro q hq
            rcases (usesPeer_append c q _ _).mp hq with h | h
            · exact absurd h (z3 q)
            · exact List.mem_append.mpr (Or.inr (J2 q h))
          · intro hcl
            rw [discCount_append, createdCount_append, z1, z2]
            simpa using J3 hcl
          · intro hncl
            rw [discCount_append, z2]
            simpa using J4 hncl
        · intro p hlv hbd
          obtain ⟨J1, J2, J3, J4⟩ := IH3 p hlv hbd
          refine ⟨?_, ?_, ?_, ?_⟩
          · rw [createdCount_append, z1]; simpa using J1
          · intro q hq
            rcases (usesPeer_append c q _ _).mp hq with h | h
            · exact absurd h (z3 q)
            · exact J2 q h
          · intro hcl
            rw [discCount_append, z2]
            simpa using J3 hcl
          · intro hncl
            rw [discCount_append, z2]
            simpa using J4 hncl
      · -- an identity was already bound: dispatch reuses it
        rw [hms]
        obtain ⟨IH1, IH2, IH3⟩ := ih st seen live hv' hnd hsub
        have hzO : ∀ os, os = [Obs.procMsg c0 json p0] ∨
            os = [Obs.procMsg c0 json p0, Obs.wsClose c0] →
            createdCount os c = 0 ∧ discCount os c = 0 := by
          rintro os (rfl | rfl) <;>
            exact ⟨by simp [createdCount], by simp [discCount]⟩
        obtain ⟨z1, z2⟩ := hzO _ hmo
        have huses : ∀ q, usesPeer c q (handleMessage lvl reg st c0 payload).obs →
            c = c0 ∧ q = p0 := by
          intro q hq
          rcases hmo with hm | hm <;>
            · rw [hm] at hq
              rcases hq with ⟨m, hmm⟩ | hmm <;> simp at hmm
              · exact ⟨hmm.1, hmm.2.2⟩
        refine ⟨?_, ?_, ?_⟩
        · rintro ⟨hcs, hcl⟩
          have hne : c ≠ c0 := fun h => hcl (h ▸ hc0live)
          intro o ho
          rcases List.mem_append.mp ho with h | h
          · rcases hmo with hm | hm <;>
              · rw [hm] at h
                simp at h
                first
                | (rw [h]; simpa [obsConn] using hne.symm)
                | (rcases h with h | h <;> (rw [h]; simpa [obsConn] using hne.symm))
          · exact IH1 ⟨hcs, hcl⟩ o h
        · intro hcase
          have hne : c ≠ c0 := by
            rcases hcase with hns | ⟨hlv, hbd⟩
            · exact fun h => hns (h ▸ hc0seen)
            · intro h
              rw [h] at hbd
              rw [hbd] at hbp0
              cases hbp0
          obtain ⟨J1, J2, J3, J4⟩ := IH2 hcase
          refine ⟨?_, ?_, ?_, ?_⟩
          · rw [createdCount_append, z1]; simpa using J1
          · intro q hq
            rcases (usesPeer_append c q _ _).mp hq with h | h
            · exact absurd (huses q h).1 hne
            · exact List.mem_append.mpr (Or.inr (J2 q h))
          · intro hcl
            rw [discCount_append, createdCount_append, z1, z2]
            simpa using J3 hcl
          · intro hncl
            rw [discCount_append, z2]
            simpa using J4 hncl
        · intro p hlv hbd
          obtain ⟨J1, J2, J3, J4⟩ := IH3 p hlv hbd
          refine ⟨?_, ?_, ?_, ?_⟩
          · rw [createdCount_append, z1]; simpa using J1
          · intro q hq
            rcases (usesPeer_append c q _ _).mp hq with h | h
            · obtain ⟨hc2, hq2⟩ := huses q h
              subst hc2
              rw [hbd] at hbp0
              injection hbp0 with hpp
              exact hq2.trans hpp.symm
            · exact J2 q h
          · intro hcl
            rw [discCount_append, z2]
            simpa using J3 hcl
          · intro hncl
            rw [discCount_append, z2]
            simpa using J4 hncl
      · -- no identity bound: one is created and bound, then dispatched
        rw [hms]
        set np := st.nextPeer with hnp
        set st2 : GState :=
          { webSocketsCount := st.webSocketsCount,
            conns := updateConns st.conns c0
              (some { peer := some np, bufferedAmount := buf2 }),
            nextPeer := np + 1 } with hst2
        have hbound2_c0 : boundPeer st2 c0 = some np := by
          simp [boundPeer, hst2, updateConns]
        have hbound2_other : ∀ x, x ≠ c0 → boundPeer st2 x = boundPeer st x := by
          intro x hx
          simp [boundPeer, hst2, updateConns, hx]
        obtain ⟨IH1, IH2, IH3⟩ := ih st2 seen live hv' hnd hsub
        have hcreated1 : c = c0 → createdCount (handleMessage lvl reg st c0 payload).obs c = 1 := by
          rintro rfl
          rcases hmo with hm | hm <;> simp [hm, createdCount, List.countP_cons]
        have hzne : c ≠ c0 → createdCount (handleMessage lvl reg st c0 payload).obs c = 0 ∧
            discCount (handleMessage lvl reg st c0 payload).obs c = 0 := by
          intro hne
          rcases hmo with hm | hm <;>
            · constructor <;> simp [hm, createdCount, discCount, List.countP_cons, Ne.symm hne]
        have hdisc0 : discCount (handleMessage lvl reg st c0 payload).obs c = 0 := by
          rcases hmo with hm | hm <;> simp [hm, discCount, List.countP_cons]
        have huses : ∀ q, usesPeer c q (handleMessage lvl reg st c0 payload).obs →
            c = c0 ∧ q = np := by
          intro q hq
          rcases hmo with hm | hm <;>
            · rw [hm] at hq
              rcases hq with ⟨m, hmm⟩ | hmm <;> simp at hmm
              · exact ⟨hmm.1, hmm.2.2⟩
        have hmemcreated : c = c0 →
            Obs.peerCreated c np ∈ (handleMessage lvl reg st c0 payload).obs := by
          rintro rfl
          rcases hmo with hm | hm <;> simp [hm]
        refine ⟨?_, ?_, ?_⟩
        · rintro ⟨hcs, hcl⟩
          have hne : c ≠ c0 := fun h => hcl (h ▸ hc0live)
          intro o ho
          rcases List.mem_append.mp ho with h | h
          · rcases hmo with hm | hm <;>
              · rw [hm] at h
                simp at h
                rcases h with h | h
                · rw [h]; simpa [obsConn] using hne.symm
                · first
                  | (rw [h]; simpa [obsConn] using hne.symm)
                  | (rcases h with h | h <;> (rw [h]; simpa [obsConn] using hne.symm))
          · exact IH1 ⟨hcs, hcl⟩ o h
        · intro hcase
          by_cases hcc : c = c0
          · subst hcc
            obtain ⟨J1, J2, J3, J4⟩ := IH3 np hc0live hbound2_c0
            refine ⟨?_, ?_, ?_, ?_⟩
            · rw [createdCount_append, hcreated1 rfl, J1]
            · intro q hq
              rcases (usesPeer_append c q _ _).mp hq with h | h
              · obtain ⟨_, hq⟩ := huses q h
                subst hq
                exact List.mem_append.mpr (Or.inl (hmemcreated rfl))
              · have hq := J2 q h
                subst hq
                exact List.mem_append.mpr (Or.inl (hmemcreated rfl))
            · intro hcl
              rw [discCount_append, createdCount_append, hcreated1 rfl, hdisc0, J1, J3 hcl]
            · intro hncl
              rw [discCount_append, hdisc0, J4 hncl]
          · have hne : c ≠ c0 := hcc
            obtain ⟨z1, z2⟩ := hzne hne
            have hcase2 : c ∉ seen ∨ (c ∈ live ∧ boundPeer st2 c = none) := by
              rcases hcase with hns | ⟨hlv, hbd⟩
              · exact Or.inl hns
              · exact Or.inr ⟨hlv, (hbound2_other c hne).trans hbd⟩
            obtain ⟨J1, J2, J3, J4⟩ := IH2 hcase2
            refine ⟨?_, ?_, ?_, ?_⟩
            · rw [createdCount_append, z1]; simpa using J1
            · intro q hq
              rcases (usesPeer_append c q _ _).mp hq with h | h
              · exact absurd (huses q h).1 hne
              · exact List.mem_append.mpr (Or.inr (J2 q h))
            · intro hcl
              rw [discCount_append, createdCount_append, z1, z2]
              simpa using J3 hcl
            · intro hncl
              rw [discCount_append, z2]
              simpa using J4 hncl
        · intro p hlv hbd
          have hne : c ≠ c0 := by
            intro h
            rw [h] at hbd
            rw [hbd] at hbp0
            cases hbp0
          obtain ⟨z1, z2⟩ := hzne hne
          obtain ⟨J1, J2, J3, J4⟩ := IH3 p hlv ((hbound2_other c hne).trans hbd)
          refine ⟨?_, ?_, ?_, ?_⟩
          · rw [createdCount_append, z1]; simpa using J1
          · intro q hq
            rcases (usesPeer_append c q _ _).mp hq with h | h
            · exact absurd (huses q h).1 hne
            · exact J2 q h
          · intro hcl
            rw [discCount_append, z2]
            simpa using J3 hcl
          · intro hncl
            rw [discCount_append, z2]
            simpa using J4 hncl

theorem parseHexDigit_hexDigitChar (n : Nat) (h : n < 16) :
    parseHexDigit (hexDigitChar n) = some n := by
  interval_cases n <;> decide

theorem psb_close (l : List Char) : parseStringBody ('"' :: l) = some ([], l) := by
  rw [parseStringBody.eq_def]
  simp

theorem psb_esc_quote (l : List Char) : parseStringBody ('\\' :: '"' :: l)
    = (parseStringBody l).map (fun p => ('"' :: p.1, p.2)) := by
  rw [parseStringBody.eq_def]
  simp

theorem psb_esc_backslash (l : List Char) : parseStringBody ('\\' :: '\\' :: l)
    = (parseStringBody l).map (fun p => ('\\' :: p.1, p.2)) := by
  rw [parseStringBody.eq_def]
  simp

theorem psb_esc_b (l : List Char) : parseStringBody ('\\' :: 'b' :: l)
    = (parseStringBody l).map (fun p => ('\x08' :: p.1, p.2)) := by
  rw [parseStringBody.eq_def]
  simp

theorem psb_esc_t (l : List Char) : parseStringBody ('\\' :: 't' :: l)
    = (parseStringBody l).map (fun p => ('\x09' :: p.1, p.2)) := by
  rw [parseStringBody.eq_def]
  simp

theorem psb_esc_n (l : List Char) : parseStringBody ('\\' :: 'n' :: l)
    = (parseStringBody l).map (fun p => ('\x0a' :: p.1, p.2)) := by
  rw [parseStringBody.eq_def]
  simp

theorem psb_esc_f (l : List Char) : parseStringBody ('\\' :: 'f' :: l)
    = (parseStringBody l).map (fun p => ('\x0c' :: p.1, p.2)) := by
  rw [parseStringBody.eq_def]
  simp

theorem psb_esc_r (l : List Char) : parseStringBody ('\\' :: 'r' :: l)
    = (parseStringBody l).map (fun p => ('\x0d' :: p.1, p.2)) := by
  rw [parseStringBody.eq_def]
  simp

theorem psb_u (h1 h2 h3 h4 : Char) (l : List Char) :
    parseStringBody ('\\' :: 'u' :: h1 :: h2 :: h3 :: h4 :: l) =
      (match parseHexDigit h1, parseHexDigit h2, parseHexDigit h3, parseHexDigit h4 with
       | some a, some b, some c2, some d =>
         (parseStringBody l).map
           (fun p => (Char.ofNat (((a * 16 + b) * 16 + c2) * 16 + d) :: p.1, p.2))
       | _, _, _, _ => none) := by
  rw [parseStringBody.eq_def]
  simp
  try rfl

theorem psb_verbatim (c : Char) (l : List Char) (h1 : ¬ c = '"') (h2 : ¬ c = '\\')
    (h3 : ¬ c.toNat < 32) :
    parseStringBody (c :: l) = (parseStringBody l).map (fun p => (c :: p.1, p.2)) := by
  rw [parseStringBody.eq_def]
  simp [h1, h2, h3]

theorem parseStringBody_escape (cs : List Char) (rest : List Char) :
    parseStringBody ((cs.flatMap escapeChar) ++ '"' :: rest) = some (cs, rest) := by
  induction cs with
  | nil => simp only [List.flatMap_nil, List.nil_append, psb_close]
  | cons c cs ih =>
    rw [List.flatMap_cons, List.append_assoc]
    by_cases e1 : c = '"'
    · subst e1
      rw [show escapeChar '"' = ['\\', '"'] by decide]
      simp only [List.cons_append, List.nil_append]
      rw [psb_esc_quote, ih]
      rfl
    · by_cases e2 : c = '\\'
      · subst e2
        rw [show escapeChar '\\' = ['\\', '\\'] by decide]
        simp only [List.cons_append, List.nil_append]
        rw [psb_esc_backslash, ih]
        rfl
      · by_cases e3 : c = '\x08'
        · subst e3
          rw [show escapeChar '\x08' = ['\\', 'b'] by decide]
          simp only [List.cons_append, List.nil_append]
          rw [psb_esc_b, ih]
          rfl
        · by_cases e4 : c = '\x09'
          · subst e4
            rw [show escapeChar '\x09' = ['\\', 't'] by decide]
            simp only [List.cons_append, List.nil_append]
            rw [psb_esc_t, ih]
            rfl
          · by_cases e5 : c = '\x0a'
            · subst e5
              rw [show escapeChar '\x0a' = ['\\', 'n'] by decide]
              simp only [List.cons_append, List.nil_append]
              rw [psb_esc_n, ih]
              rfl
            · by_cases e6 : c = '\x0c'
              · subst e6
                rw [show escapeChar '\x0c' = ['\\', 'f'] by decide]
                simp only [List.cons_append, List.nil_append]
                rw [psb_esc_f, ih]
                rfl
              · by_cases e7 : c = '\x0d'
                · subst e7
                  rw [show escapeChar '\x0d' = ['\\', 'r'] by decide]
                  simp only [List.cons_append, List.nil_append]
                  rw [psb_esc_r, ih]
                  rfl
                · by_cases e8 : c.toNat < 32
                  · have hesc : escapeChar c = '\\' :: 'u' :: '0' :: '0'
                        :: hexDigitChar (c.toNat / 16) :: [hexDigitChar (c.toNat % 16)] := by
                      rw [escapeChar]
                      rw [if_neg e1, if_neg e2, if_neg e3, if_neg e4, if_neg e5, if_neg e6,
                        if_neg e7, if_pos e8]
                    rw [hesc]
                    simp only [List.cons_append, List.nil_append]
                    rw [psb_u]
                    rw [show parseHexDigit '0' = some 0 by decide]
                    rw [parseHexDigit_hexDigitChar (c.toNat / 16) (by omega)]
                    rw [parseHexDigit_hexDigitChar (c.toNat % 16) (by omega)]
                    rw [ih]
                    show Option.map
                        (fun p => (Char.ofNat (((0 * 16 + 0) * 16 + c.toNat / 16) * 16
                          + c.toNat % 16) :: p.1, p.2)) (some (cs, rest)) = some (c :: cs, rest)
                    have hval : ((0 * 16 + 0) * 16 + c.toNat / 16) * 16 + c.toNat % 16
                        = c.toNat := by omega
                    rw [Option.map_some', hval, Char.ofNat_toNat]
                  · have hesc : escapeChar c = [c] := by
                      rw [escapeChar]
                      rw [if_neg e1, if_neg e2, if_neg e3, if_neg e4, if_neg e5, if_neg e6,
                        if_neg e7, if_neg e8]
                    rw [hesc]
                    simp only [List.cons_append, List.nil_append]
                    rw [psb_verbatim c _ e1 e2 e8, ih]
                    rfl

theorem digitChar_facts (d : Nat) (h : d < 10) :
    (digitChar d).isDigit = true ∧ isWsChar (digitChar d) = false ∧
    (digitChar d).toNat = 48 + d ∧
    digitChar d ≠ ']' ∧ digitChar d ≠ rbr ∧ digitChar d ≠ 'n' ∧ digitChar d ≠ 't' ∧
    digitChar d ≠ 'f' ∧ digitChar d ≠ '"' ∧ digitChar d ≠ '-' := by
  interval_cases d <;> decide

theorem natChars_ne_nil (n : Nat) : natChars n ≠ [] := by
  rw [natChars]
  split
  · simp
  · simp

theorem natChars_all_digits (n : Nat) : ∀ ch ∈ natChars n, ch.isDigit = true := by
  induction n using Nat.strong_induction_on with
  | _ n ih =>
    rw [natChars]
    split
    · next h =>
      intro ch hch
      simp at hch
      subst hch
      exact (digitChar_facts n h).1
    · next h =>
      intro ch hch
      have hlt : n / 10 < n := Nat.div_lt_self (by omega) (by omega)
      rcases List.mem_append.mp hch with hm | hm
      · exact ih (n / 10) hlt ch hm
      · simp at hm
        subst hm
        exact (digitChar_facts (n % 10) (Nat.mod_lt _ (by omega))).1

theorem natChars_head (n : Nat) : ∃ d ds, natChars n = digitChar d :: ds ∧ d < 10 := by
  induction n using Nat.strong_induction_on with
  | _ n ih =>
    rw [natChars]
    split
    · next h => exact ⟨n, [], rfl, h⟩
    · next h =>
      have hlt : n / 10 < n := Nat.div_lt_self (by omega) (by omega)
      obtain ⟨d, ds, heq, hd⟩ := ih (n / 10) hlt
      exact ⟨d, ds ++ [digitChar (n % 10)], by rw [heq, List.cons_append], hd⟩

theorem digitsToNat_append (acc : Nat) (xs ys : List Char) :
    digitsToNat acc (xs ++ ys) = digitsToNat (digitsToNat acc xs) ys := by
  induction xs generalizing acc with
  | nil => rfl
  | cons x xs ih => exact ih (acc * 10 + (x.toNat - 48))

theorem digitsToNat_single (acc : Nat) (c : Char) :
    digitsToNat acc [c] = acc * 10 + (c.toNat - 48) := rfl

theorem digitsToNat_natChars (n : Nat) : digitsToNat 0 (natChars n) = n := by
  induction n using Nat.strong_induction_on with
  | _ n ih =>
    rw [natChars]
    split
    · next h =>
      rw [digitsToNat_single, (digitChar_facts n h).2.2.1]
      omega
    · next h =>
      have hlt : n / 10 < n := Nat.div_lt_self (by omega) (by omega)
      rw [digitsToNat_append, ih (n / 10) hlt, digitsToNat_single,
        (digitChar_facts (n % 10) (Nat.mod_lt _ (by omega))).2.2.1]
      omega

theorem takeDigits_append (digs rest : List Char) (hds : ∀ ch ∈ digs, ch.isDigit = true)
    (hrest : noDigitHead rest) : takeDigits (digs ++ rest) = (digs, rest) := by
  induction digs with
  | nil =>
    cases rest with
    | nil => rfl
    | cons r rs =>
      simp only [noDigitHead] at hrest
      simp [takeDigits, hrest]
  | cons d digs ih =>
    have hd := hds d (by simp)
    have ih' := ih (fun ch hch => hds ch (by simp [hch]))
    simp [takeDigits, hd, ih']

theorem parseDigits_natChars (n : Nat) (rest : List Char) (hrest : noDigitHead rest) :
    parseDigits (natChars n ++ rest) = some (n, rest) := by
  unfold parseDigits
  rw [takeDigits_append _ _ (natChars_all_digits n) hrest]
  cases hnc : natChars n with
  | nil => exact absurd hnc (natChars_ne_nil n)
  | cons d ds =>
    show some (digitsToNat 0 (d :: ds), rest) = some (n, rest)
    rw [← hnc, digitsToNat_natChars]

theorem skipWs_cons_of_not (c : Char) (l : List Char) (h : isWsChar c = false) :
    skipWs (c :: l) = c :: l := by
  simp [skipWs, h]

theorem stringifyElems_prefix_form (v : Json) (vs : List Json) :
    ∃ tl, stringifyElems v vs = stringifyChars v ++ tl := by
  cases vs with
  | nil => exact ⟨[], by rw [stringifyElems, List.append_nil]⟩
  | cons w ws => exact ⟨_, by rw [stringifyElems]⟩

theorem stringifyMembers_prefix_form (k : String) (v : Json) (ms : List (String × Json)) :
    ∃ tl, stringifyMembers k v ms = quoteString k ++ tl := by
  cases ms with
  | nil => exact ⟨_, by rw [stringifyMembers]⟩
  | cons m ms =>
    cases m with
    | mk k2 v2 => exact ⟨_, by rw [stringifyMembers, List.append_assoc]⟩

theorem stringifyChars_head (v : Json) : ∃ ch l, stringifyChars v = ch :: l ∧
    isWsChar ch = false ∧ ch ≠ ']' ∧ ch ≠ rbr := by
  cases v with
  | null => exact ⟨'n', _, by rw [stringifyChars], by decide⟩
  | bool b =>
    cases b
    · exact ⟨'f', _, by rw [stringifyChars], by decide⟩
    · exact ⟨'t', _, by rw [stringifyChars], by decide⟩
  | str s =>
    exact ⟨'"', s.data.flatMap escapeChar ++ ['"'],
      by rw [stringifyChars, quoteString]; exact List.cons_append _ _ _, by decide⟩
  | num n =>
    by_cases hn : n < 0
    · exact ⟨'-', natChars n.natAbs, by rw [stringifyChars, intChars, if_pos hn], by decide⟩
    · obtain ⟨d, ds, heq, hd⟩ := natChars_head n.natAbs
      obtain ⟨_, hws, _, hbr, hbr2, _⟩ := digitChar_facts d hd
      refine ⟨digitChar d, ds, ?_, hws, hbr, hbr2⟩
      rw [stringifyChars, intChars, if_neg hn, heq]
  | arr es =>
    cases es with
    | nil => exact ⟨'[', _, by rw [stringifyChars], by decide⟩
    | cons v vs =>
      exact ⟨'[', stringifyElems v vs ++ [']'],
        by rw [stringifyChars]; exact List.cons_append _ _ _, by decide⟩
  | obj ms =>
    cases ms with
    | nil => exact ⟨lbr, _, by rw [stringifyChars], by decide, by decide, by decide⟩
    | cons m ms =>
      cases m with
      | mk k v =>
        exact ⟨lbr, stringifyMembers k v ms ++ [rbr],
          by rw [stringifyChars]; exact List.cons_append _ _ _, by decide, by decide,
          by decide⟩

theorem noDigitHead_nil : noDigitHead [] := trivial

theorem noDigitHead_cons (c : Char) (l : List Char) (h : c.isDigit = false) :
    noDigitHead (c :: l) := h

theorem string_mk_data (s : String) : String.mk s.data = s := rfl

theorem parseValue_null (f : Nat) (rest : List Char) :
    parseValue (f + 1) ('n' :: 'u' :: 'l' :: 'l' :: rest) = some (.null, rest) := rfl

theorem parseValue_true (f : Nat) (rest : List Char) :
    parseValue (f + 1) ('t' :: 'r' :: 'u' :: 'e' :: rest) = some (.bool true, rest) := rfl

theorem parseValue_false (f : Nat) (rest : List Char) :
    parseValue (f + 1) ('f' :: 'a' :: 'l' :: 's' :: 'e' :: rest) = some (.bool false, rest) := rfl

theorem parseValue_quote (f : Nat) (l : List Char) :
    parseValue (f + 1) ('"' :: l)
      = (parseStringBody l).map (fun p => (Json.str (String.mk p.1), p.2)) := rfl

theorem parseValue_minus (f : Nat) (l : List Char) :
    parseValue (f + 1) ('-' :: l) =
      (match parseDigits l with
       | some (n, r) => some (.num (-(n : Int)), r)
       | none => none) := rfl

theorem parseValue_digitChar (f : Nat) (d : Nat) (hd : d < 10) (l : List Char) :
    parseValue (f + 1) (digitChar d :: l) =
      (match parseDigits (digitChar d :: l) with
       | some (n, r) => some (.num (n : Int), r)
       | none => none) := by
  interval_cases d <;> rfl

theorem parseValue_lbrack (f : Nat) (l : List Char) :
    parseValue (f + 1) ('[' :: l) =
      (match skipWs l with
       | [] => none
       | c2 :: r2 =>
         if c2 = ']' then some (.arr [], r2)
         else (parseElems f (c2 :: r2)).map (fun p => (.arr p.1, p.2))) := rfl

theorem parseValue_lbrace (f : Nat) (l : List Char) :
    parseValue (f + 1) (lbr :: l) =
      (match skipWs l with
       | [] => none
       | c2 :: r2 =>
         if c2 = rbr then some (.obj [], r2)
         else (parseMembers f (c2 :: r2)).map (fun p => (.obj p.1, p.2))) := rfl

theorem parseElems_succ (f : Nat) (l : List Char) :
    parseElems (f + 1) l =
      (match parseValue f l with
       | none => none
       | some (v, r) =>
         match skipWs r with
         | [] => none
         | c :: r2 =>
           if c = ',' then (parseElems f r2).map (fun p => (v :: p.1, p.2))
           else if c = ']' then some ([v], r2)
           else none) := rfl

theorem parseMembers_succ (f : Nat) (l : List Char) :
    parseMembers (f + 1) l =
      (match skipWs l with
       | [] => none
       | c :: rest =>
         if c = '"' then
           match parseStringBody rest with
           | none => none
           | some (k, r) =>
             match skipWs r with
             | [] => none
             | c2 :: r2 =>
               if c2 = ':' then
                 match parseValue f r2 with
                 | none => none
                 | some (v, r3) =>
                   match skipWs r3 with
                   | [] => none
                   | c3 :: r4 =>
                     if c3 = ',' then
                       (parseMembers f r4).map (fun p => ((String.mk k, v) :: p.1, p.2))
                     else if c3 = rbr then some ([(String.mk k, v)], r4)
                     else none
               else none
         else none) := rfl

theorem jFuel_pos (v : Json) : 1 ≤ jFuel v := by
  cases v with
  | arr es => cases es <;> simp [jFuel]
  | obj ms =>
    rcases ms with _ | ⟨⟨k, v⟩, ms⟩ <;> simp [jFuel]
  | null => simp [jFuel]
  | bool b => simp [jFuel]
  | num n => simp [jFuel]
  | str s => simp [jFuel]

theorem elemsFuel_pos (v : Json) (vs : List Json) : 1 ≤ elemsFuel v vs := by
  cases vs <;> simp [elemsFuel] <;> omega

theorem membersFuel_pos (v : Json) (ms : List (String × Json)) : 1 ≤ membersFuel v ms := by
  rcases ms with _ | ⟨⟨k2, v2⟩, ms⟩ <;> simp [membersFuel] <;> omega

mutual

theorem jFuel_le_length : ∀ v : Json, jFuel v ≤ (stringifyChars v).length
  | .null => by simp [jFuel, stringifyChars]
  | .bool b => by cases b <;> simp [jFuel, stringifyChars]
  | .num n => by
    have h2 : 0 < (natChars n.natAbs).length :=
      List.length_pos.mpr (natChars_ne_nil _)
    rw [jFuel, stringifyChars, intChars]
    split <;> simp <;> omega
  | .str s => by simp [jFuel, stringifyChars, quoteString]
  | .arr [] => by simp [jFuel, stringifyChars]
  | .arr (v :: vs) => by
    have h := elemsFuel_le_length v vs
    rw [jFuel, stringifyChars]
    simp only [List.length_append, List.length_cons]
    omega
  | .obj [] => by simp [jFuel, stringifyChars]
  | .obj ((k, v) :: ms) => by
    have h := membersFuel_le_length k v ms
    rw [jFuel, stringifyChars]
    simp only [List.length_append, List.length_cons]
    omega
termination_by v => sizeOf v

theorem elemsFuel_le_length : ∀ (v : Json) (vs : List Json),
    elemsFuel v vs ≤ 1 + (stringifyElems v vs).length
  | v, [] => by
    have h := jFuel_le_length v
    rw [elemsFuel, stringifyElems]
    omega
  | v, w :: ws => by
    have h1 := jFuel_le_length v
    have h2 := elemsFuel_le_length w ws
    rw [elemsFuel, stringifyElems]
    simp only [List.length_append, List.length_cons]
    omega
termination_by v vs => sizeOf v + sizeOf vs

theorem membersFuel_le_length : ∀ (k : String) (v : Json) (ms : List (String × Json)),
    membersFuel v ms ≤ 1 + (stringifyMembers k v ms).length
  | k, v, [] => by
    have h := jFuel_le_length v
    rw [membersFuel, stringifyMembers]
    simp only [List.length_append, List.length_cons]
    omega
  | k, v, (k2, v2) :: ms => by
    have h1 := jFuel_le_length v
    have h2 := membersFuel_le_length k2 v2 ms
    rw [membersFuel, stringifyMembers]
    simp only [List.length_append, List.length_cons]
    omega
termination_by k v ms => sizeOf v + sizeOf ms

end

theorem parseMembers_quote (f : Nat) (l : List Char) :
    parseMembers (f + 1) ('"' :: l) =
      (match parseStringBody l with
       | none => none
       | some (k, r) =>
         match skipWs r with
         | [] => none
         | c2 :: r2 =>
           if c2 = ':' then
             match parseValue f r2 with
             | none => none
             | some (v, r3) =>
               match skipWs r3 with
               | [] => none
               | c3 :: r4 =>
                 if c3 = ',' then
                   (parseMembers f r4).map (fun p => ((String.mk k, v) :: p.1, p.2))
                 else if c3 = rbr then some ([(String.mk k, v)], r4)
                 else none
           else none) := rfl

theorem parse_stringify_mutual : ∀ fuel : Nat,
    (∀ v rest, jFuel v ≤ fuel → noDigitHead rest →
      parseValue fuel (stringifyChars v ++ rest) = some (v, rest)) ∧
    (∀ v vs rest, elemsFuel v vs ≤ fuel →
      parseElems fuel (stringifyElems v vs ++ ']' :: rest) = some (v :: vs, rest)) ∧
    (∀ k v ms rest, membersFuel v ms ≤ fuel →
      parseMembers fuel (stringifyMembers k v ms ++ rbr :: rest) = some ((k, v) :: ms, rest)) := by
  intro fuel
  induction fuel with
  | zero =>
    refine ⟨fun v rest hf _ => absurd hf (by have := jFuel_pos v; omega),
      fun v vs rest hf => absurd hf (by have := elemsFuel_pos v vs; omega),
      fun k v ms rest hf => absurd hf (by have := membersFuel_pos v ms; omega)⟩
  | succ f ihf =>
    obtain ⟨ihP, ihQ, ihR⟩ := ihf
    refine ⟨?_, ?_, ?_⟩
    · intro v rest hf hrest
      cases v with
      | null =>
        rw [show stringifyChars .null = ['n', 'u', 'l', 'l'] from by rw [stringifyChars]]
        exact parseValue_null f rest
      | bool b =>
        cases b
        · rw [show stringifyChars (.bool false) = ['f', 'a', 'l', 's', 'e'] from by
            rw [stringifyChars]]
          exact parseValue_false f rest
        · rw [show stringifyChars (.bool true) = ['t', 'r', 'u', 'e'] from by
            rw [stringifyChars]]
          exact parseValue_true f rest
      | num n =>
        rw [show stringifyChars (.num n) = intChars n from by rw [stringifyChars]]
        by_cases hn : n < 0
        · rw [intChars, if_pos hn, List.cons_append, parseValue_minus,
            parseDigits_natChars _ _ hrest]
          show some (Json.num (-((n.natAbs : Nat) : Int)), rest) = some (Json.num n, rest)
          have he : -((n.natAbs : Nat) : Int) = n := by omega
          rw [he]
        · obtain ⟨d, ds, heq, hd⟩ := natChars_head n.natAbs
          rw [intChars, if_neg hn, heq, List.cons_append, parseValue_digitChar f d hd,
            ← List.cons_append, ← heq, parseDigits_natChars _ _ hrest]
          show some (Json.num ((n.natAbs : Nat) : Int), rest) = some (Json.num n, rest)
          have he : ((n.natAbs : Nat) : Int) = n := by omega
          rw [he]
      | str s =>
        rw [show stringifyChars (.str s) = quoteString s from by rw [stringifyChars], quoteString]
        simp only [List.cons_append, List.append_assoc, List.singleton_append, List.nil_append]
        rw [parseValue_quote, parseStringBody_escape]
        show some (Json.str (String.mk s.data), rest) = some (Json.str s, rest)
        rw [string_mk_data]
      | arr es =>
        cases es with
        | nil =>
          rw [show stringifyChars (.arr []) = ['[', ']'] from by rw [stringifyChars]]
          rw [show (['[', ']'] : List Char) ++ rest = '[' :: ']' :: rest from rfl]
          rw [parseValue_lbrack]
          rfl
        | cons v vs =>
          rw [show stringifyChars (.arr (v :: vs)) = ('[' :: stringifyElems v vs) ++ [']'] from by
            rw [stringifyChars]]
          simp only [List.cons_append, List.append_assoc, List.singleton_append, List.nil_append]
          rw [parseValue_lbrack]
          obtain ⟨tl, htl⟩ := stringifyElems_prefix_form v vs
          obtain ⟨ch, l2, hch, hws, hne1, _⟩ := stringifyChars_head v
          have key : stringifyElems v vs ++ ']' :: rest = ch :: (l2 ++ (tl ++ ']' :: rest)) := by
            rw [htl, hch, List.append_assoc, List.cons_append]
          rw [key, skipWs_cons_of_not _ _ hws]
          show (if ch = ']' then some (Json.arr [], l2 ++ (tl ++ ']' :: rest))
            else (parseElems f (ch :: (l2 ++ (tl ++ ']' :: rest)))).map
              (fun p => (Json.arr p.1, p.2))) = some (Json.arr (v :: vs), rest)
          rw [if_neg hne1, ← key]
          have hb : elemsFuel v vs ≤ f := by
            simp only [jFuel] at hf
            omega
          rw [ihQ v vs rest hb]
          rfl
      | obj ms =>
        cases ms with
        | nil =>
          rw [show stringifyChars (.obj []) = [lbr, rbr] from by rw [stringifyChars]]
          rw [show ([lbr, rbr] : List Char) ++ rest = lbr :: rbr :: rest from rfl]
          rw [parseValue_lbrace]
          rfl
        | cons m ms =>
          obtain ⟨k, v⟩ := m
          rw [show stringifyChars (.obj ((k, v) :: ms)) = (lbr :: stringifyMembers k v ms) ++ [rbr]
            from by rw [stringifyChars]]
          simp only [List.cons_append, List.append_assoc, List.singleton_append, List.nil_append]
          rw [parseValue_lbrace]
          obtain ⟨tl, htl⟩ := stringifyMembers_prefix_form k v ms
          have key : stringifyMembers k v ms ++ rbr :: rest
              = '"' :: (k.data.flatMap escapeChar ++ ('"' :: (tl ++ rbr :: rest))) := by
            rw [htl, quoteString]
            simp only [List.cons_append, List.append_assoc, List.singleton_append,
              List.nil_append]
          rw [key, skipWs_cons_of_not _ _ (by decide)]
          show (if '"' = rbr then
              some (Json.obj [], k.data.flatMap escapeChar ++ ('"' :: (tl ++ rbr :: rest)))
            else (parseMembers f
              ('"' :: (k.data.flatMap escapeChar ++ ('"' :: (tl ++ rbr :: rest))))).map
                (fun p => (Json.obj p.1, p.2))) = some (Json.obj ((k, v) :: ms), rest)
          rw [if_neg (by decide), ← key]
          have hb : membersFuel v ms ≤ f := by
            simp only [jFuel] at hf
            omega
          rw [ihR k v ms rest hb]
          rfl
    · intro v vs rest hf
      cases vs with
      | nil =>
        rw [show stringifyElems v [] = stringifyChars v from by rw [stringifyElems]]
        rw [parseElems_succ]
        have hb : jFuel v ≤ f := by
          simp only [elemsFuel] at hf
          omega
        rw [ihP v (']' :: rest) hb (noDigitHead_cons _ _ (by decide))]
        rfl
      | cons w ws =>
        rw [show stringifyElems v (w :: ws) = stringifyChars v ++ ',' :: stringifyElems w ws
          from by rw [stringifyElems]]
        simp only [List.cons_append, List.append_assoc, List.singleton_append, List.nil_append]
        rw [parseElems_succ]
        have hb1 : jFuel v ≤ f := by
          simp only [elemsFuel] at hf
          omega
        have hb2 : elemsFuel w ws ≤ f := by
          simp only [elemsFuel] at hf
          omega
        rw [ihP v (',' :: (stringifyElems w ws ++ ']' :: rest)) hb1
          (noDigitHead_cons _ _ (by decide))]
        show (parseElems f (stringifyElems w ws ++ ']' :: rest)).map
          (fun p => (v :: p.1, p.2)) = some (v :: w :: ws, rest)
        rw [ihQ w ws rest hb2]
        rfl
    · intro k v ms rest hf
      cases ms with
      | nil =>
        rw [show stringifyMembers k v [] = quoteString k ++ ':' :: stringifyChars v from by
          rw [stringifyMembers]]
        rw [quoteString]
        simp only [List.cons_append, List.append_assoc, List.singleton_append, List.nil_append]
        rw [parseMembers_quote, parseStringBody_escape]
        have hb : jFuel v ≤ f := by
          simp only [membersFuel] at hf
          omega
        show (match parseValue f (stringifyChars v ++ rbr :: rest) with
          | none => none
          | some (v2, r3) =>
            match skipWs r3 with
            | [] => none
            | c3 :: r4 =>
              if c3 = ',' then
                (parseMembers f r4).map (fun p => ((String.mk k.data, v2) :: p.1, p.2))
              else if c3 = rbr then some ([(String.mk k.data, v2)], r4)
              else none) = some ((k, v) :: [], rest)
        rw [ihP v (rbr :: rest) hb (noDigitHead_cons _ _ (by decide))]
        show some ([(String.mk k.data, v)], rest) = some ((k, v) :: [], rest)
        rw [string_mk_data]
      | cons m2 ms2 =>
        obtain ⟨k2, v2⟩ := m2
        rw [show stringifyMembers k v ((k2, v2) :: ms2)
            = quoteString k ++ ':' :: stringifyChars v ++ ',' :: stringifyMembers k2 v2 ms2
          from by rw [stringifyMembers]]
        rw [quoteString]
        simp only [List.cons_append, List.append_assoc, List.singleton_append, List.nil_append]
        rw [parseMembers_quote, parseStringBody_escape]
        have hb1 : jFuel v ≤ f := by
          simp only [membersFuel] at hf
          omega
        have hb2 : membersFuel v2 ms2 ≤ f := by
          simp only [membersFuel] at hf
          omega
        show (match parseValue f (stringifyChars v
            ++ ',' :: (stringifyMembers k2 v2 ms2 ++ rbr :: rest)) with
          | none => none
          | some (w, r3) =>
            match skipWs r3 with
            | [] => none
            | c3 :: r4 =>
              if c3 = ',' then
                (parseMembers f r4).map (fun p => ((String.mk k.data, w) :: p.1, p.2))
              else if c3 = rbr then some ([(String.mk k.data, w)], r4)
              else none) = some ((k, v) :: (k2, v2) :: ms2, rest)
        rw [ihP v (',' :: (stringifyMembers k2 v2 ms2 ++ rbr :: rest)) hb1
          (noDigitHead_cons _ _ (by decide))]
        show (parseMembers f (stringifyMembers k2 v2 ms2 ++ rbr :: rest)).map
          (fun p => ((String.mk k.data, v) :: p.1, p.2)) = some ((k, v) :: (k2, v2) :: ms2, rest)
        rw [ihR k2 v2 ms2 rest hb2]
        show some ((String.mk k.data, v) :: (k2, v2) :: ms2, rest)
          = some ((k, v) :: (k2, v2) :: ms2, rest)
        rw [string_mk_data]

/-- C9: round trip — for every structured message value, serializing it
with the model of `JSON.stringify` used by the identity's `sendMessage`
and then decoding the produced text with the model of `JSON.parse` used
by the message handler yields the original structured value. -/
theorem c9_stringify_parse_roundtrip (v : Json) :
    Json.parse (Json.stringify v) = some v := by
  unfold Json.parse Json.stringify parseChars
  rw [show (String.mk (stringifyChars v)).data = stringifyChars v from rfl]
  have hfuel : jFuel v ≤ (stringifyChars v).length + 1 := by
    have := jFuel_le_length v
    omega
  have h := (parse_stringify_mutual ((stringifyChars v).length + 1)).1 v [] hfuel noDigitHead_nil
  rw [List.append_nil] at h
  rw [h]
  rfl

/-- C1: for every connection in every valid event sequence, at most one
peer identity is ever created, every identity index handed to the
registry on the connection's behalf is the one recorded as created for
it, and any two creations recorded for the connection coincide — so every
successfully decoded message after the first reuses the existing identity
object. -/
theorem c1_at_most_one_identity (lvl : Nat) (reg : Registry) (evs : List Event)
    (h : ValidTrace evs) (c : ConnId) :
    createdCount (runEvents lvl reg GState.initial evs).obs c ≤ 1 ∧
    (∀ q, usesPeer c q (runEvents lvl reg GState.initial evs).obs →
      Obs.peerCreated c q ∈ (runEvents lvl reg GState.initial evs).obs) ∧
    (∀ q q', Obs.peerCreated c q ∈ (runEvents lvl reg GState.initial evs).obs →
      Obs.peerCreated c q' ∈ (runEvents lvl reg GState.initial evs).obs → q = q') := by
  obtain ⟨_, H2, _⟩ := runEvents_peer_discipline lvl reg c evs GState.initial [] [] h
    List.nodup_nil (by simp)
  obtain ⟨J1, J2, _, _⟩ := H2 (Or.inl (by simp))
  exact ⟨J1, J2, fun q q' h1 h2 => two_creations_eq _ c J1 q q' h1 h2⟩

theorem c1_at_most_one_identity_witness :
    ValidTrace [Event.opened 7 0, .message 7 "1", .message 7 "2", .closed 7 0] ∧
    createdCount (runEvents 0 (fun _ _ => ProcOutcome.ok) GState.initial
      [Event.opened 7 0, .message 7 "1", .message 7 "2", .closed 7 0]).obs 7 ≤ 1 :=
  ⟨by decide,
   (c1_at_most_one_identity 0 (fun _ _ => ProcOutcome.ok)
     [Event.opened 7 0, .message 7 "1", .message 7 "2", .closed 7 0] (by decide) 7).1⟩

/-- C2: for every connection in every valid event sequence, the
registry's disconnect operation is called at most once; when the
connection's close event occurs, the number of disconnect calls equals
the number of identities created for it (one call exactly when an
identity was created, none for a connection that never had a message
decode); without a close event there is no disconnect call; and any
disconnect call hands the registry the very identity that every
`processMessage` call for that connection received. -/
theorem c2_disconnect_iff_created (lvl : Nat) (reg : Registry) (evs : List Event)
    (h : ValidTrace evs) (c : ConnId) :
    discCount (runEvents lvl reg GState.initial evs).obs c ≤ 1 ∧
    (closedIn c evs →
      discCount (runEvents lvl reg GState.initial evs).obs c =
        createdCount (runEvents lvl reg GState.initial evs).obs c) ∧
    (¬ closedIn c evs → discCount (runEvents lvl reg GState.initial evs).obs c = 0) ∧
    (∀ q, Obs.discPeer c q ∈ (runEvents lvl reg GState.initial evs).obs →
      Obs.peerCreated c q ∈ (runEvents lvl reg GState.initial evs).obs ∧
      (∀ m q', Obs.procMsg c m q' ∈ (runEvents lvl reg GState.initial evs).obs → q' = q)) := by
  obtain ⟨_, H2, _⟩ := runEvents_peer_discipline lvl reg c evs GState.initial [] [] h
    List.nodup_nil (by simp)
  obtain ⟨J1, J2, J3, J4⟩ := H2 (Or.inl (by simp))
  have hd1 : discCount (runEvents lvl reg GState.initial evs).obs c ≤ 1 := by
    by_cases hcl : closedIn c evs
    · rw [J3 hcl]; exact J1
    · rw [J4 hcl]; exact Nat.zero_le 1
  refine ⟨hd1, J3, J4, fun q hdisc => ?_⟩
  have hcq : Obs.peerCreated c q ∈ (runEvents lvl reg GState.initial evs).obs :=
    J2 q (Or.inr hdisc)
  refine ⟨hcq, fun m q' hproc => ?_⟩
  have hcq' : Obs.peerCreated c q' ∈ (runEvents lvl reg GState.initial evs).obs :=
    J2 q' (Or.inl ⟨m, hproc⟩)
  exact two_creations_eq _ c J1 q' q hcq' hcq

theorem c2_disconnect_iff_created_witness :
    ValidTrace [Event.opened 7 0, .message 7 "1", .closed 7 0] ∧
    closedIn 7 [Event.opened 7 0, .message 7 "1", .closed 7 0] ∧
    discCount (runEvents 0 (fun _ _ => ProcOutcome.ok) GState.initial
      [Event.opened 7 0, .message 7 "1", .closed 7 0]).obs 7 =
    createdCount (runEvents 0 (fun _ _ => ProcOutcome.ok) GState.initial
      [Event.opened 7 0, .message 7 "1", .closed 7 0]).obs 7 :=
  ⟨by decide, ⟨0, by simp⟩,
   (c2_disconnect_iff_created 0 (fun _ _ => ProcOutcome.ok)
     [Event.opened 7 0, .message 7 "1", .closed 7 0] (by decide) 7).2.1 ⟨0, by simp⟩⟩

/-- C3: for every valid sequence of transport events (each close firing
exactly once for a previously opened connection), after every prefix the
`webSocketsCount` equals the number of opens minus the number of closes
in the prefix, and is never negative. -/
theorem c3_connection_count (lvl : Nat) (reg : Registry) (evs : List Event)
    (h : ValidTrace evs) (i : Nat) :
    (runEvents lvl reg GState.initial (evs.take i)).st.webSocketsCount
      = (countOpens (evs.take i) : Int) - countCloses (evs.take i) ∧
    0 ≤ (runEvents lvl reg GState.initial (evs.take i)).st.webSocketsCount := by
  have hv := validAux_take evs [] [] i h
  have hmain := runEvents_count_aux lvl reg (evs.take i) GState.initial [] [] hv
    (by simp) (by simp) rfl
  simpa [GState.initial] using hmain

theorem c3_connection_count_witness :
    ValidTrace [Event.opened 5 0, .opened 6 0, .closed 5 0] ∧
    (runEvents 0 (fun _ _ => ProcOutcome.ok) GState.initial
      ([Event.opened 5 0, .opened 6 0, .closed 5 0].take 3)).st.webSocketsCount
      = (countOpens ([Event.opened 5 0, .opened 6 0, .closed 5 0].take 3) : Int)
        - countCloses ([Event.opened 5 0, .opened 6 0, .closed 5 0].take 3) :=
  ⟨by decide,
   (c3_connection_count 0 (fun _ _ => ProcOutcome.ok)
     [Event.opened 5 0, .opened 6 0, .closed 5 0] (by decide) 3).1⟩

end UwsTracker
